import Mathlib

/-!
Verification development for a sandboxed file-processing service
(FastAPI app `app.py` with `models.py`, `config.py`,
`services/job_service.py`, `services/sandbox_service.py`,
`services/cleanup_service.py`).

The job registry (`job_status` in `job_service.py`) is a Python dict from
job id to a dict of string fields.  We embed records as association lists
`List (String × String)` with dict-assignment modelled as cons-after-filter
(lookup-equivalent to Python dict mutation), and the registry itself as an
association list from job id to record.  The filesystem is a finite map of
file paths to contents plus a set of directories.  Process execution is
embedded as a pure function from the observable outcome of the subprocess
wait (exit / timeout / launch failure) to the sequence of registry updates
the executor performs, exactly as written in `sandbox_service.py`.
-/

/-- Python substring test `needle in hay` on strings: the needle's
character list is a contiguous infix of the hay's character list. -/
def strContains (hay needle : String) : Bool :=
  decide (needle.data <:+: hay.data)

/-- Python suffix test `s.endswith(suf)` on strings: the suffix's
character list is a suffix of the string's character list. -/
def strEndsWith (s suf : String) : Bool :=
  decide (suf.data <:+ s.data)

/-- A job record: a Python dict with string keys and string values
(`job_status[job_id]` in `services/job_service.py`). -/
abbrev JobRecord := List (String × String)

/-- The registry `job_status : Dict[str, Dict[str, Any]]`. -/
abbrev Registry := List (String × JobRecord)

/-- First-match association-list lookup: Python dict read `d[k]`
(`none` when the key is absent). -/
def lookupKey {β : Type} (l : List (String × β)) (k : String) : Option β :=
  match l with
  | [] => none
  | p :: tl => if p.1 = k then some p.2 else lookupKey tl k

/-- Dict read `rec[k]` on a job record. -/
def lookupField (r : JobRecord) (k : String) : Option String :=
  lookupKey r k

/-- Dict assignment `rec[k] = v`: the new binding replaces any previous
binding of `k`; lookup-equivalent to Python in-place dict mutation. -/
def setField (r : JobRecord) (k v : String) : JobRecord :=
  (k, v) :: r.filter (fun p => p.1 != k)

/-- Sequential dict assignments, in order (Python
`for key, value in kwargs.items(): job[key] = value`). -/
def setFields (r : JobRecord) (kvs : List (String × String)) : JobRecord :=
  kvs.foldl (fun acc kv => setField acc kv.1 kv.2) r

/-- `update_job_status` from `services/job_service.py`: if the id is in
the registry, set its `status` field and then every keyword field; an
unknown id is a silent no-op. -/
def update_job_status (reg : Registry) (jobId status : String)
    (kwargs : List (String × String)) : Registry :=
  if (lookupKey reg jobId).isSome then
    reg.map (fun p =>
      if p.1 = jobId then (p.1, setFields (setField p.2 "status" status) kwargs)
      else p)
  else reg

/-- `delete_job` from `services/job_service.py`: remove the id from the
registry (no-op when absent). -/
def delete_job (reg : Registry) (jobId : String) : Registry :=
  reg.filter (fun p => p.1 != jobId)

/-- The fixed denylist `forbidden_modules` from the `validate_code`
validator in `models.py`. -/
def forbidden_modules : List String :=
  ["subprocess", "os.system", "eval(", "exec(", "importlib",
   "sys.modules", "__import__", "open(", "file(",
   "execfile(", "compile(", "pty", "popen", "system"]

/-- `validate_code` from `models.py`: scan the denylist in order; raise
(here: `.error`) at the first token contained in the submission, else
return the submission unchanged. -/
def validate_code (v : String) : Except String String :=
  match forbidden_modules.find? (fun m => strContains v m) with
  | some m => .error ("Forbidden module or function detected: " ++ m)
  | none => .ok v

/-- Filesystem state: regular files (path, content) and directories.
`config.py` roots everything under `tempfile.gettempdir()` which is
`/tmp` on a default Unix host. -/
structure FS where
  files : List (String × String)
  dirs : List String
deriving DecidableEq

/-- `os.path.join(tempfile.gettempdir(), 'file_processor', 'code')`. -/
def CODE_FOLDER : String := "/tmp/file_processor/code"

/-- `os.path.join(tempfile.gettempdir(), 'file_processor', 'results')`. -/
def RESULTS_FOLDER : String := "/tmp/file_processor/results"

/-- `MAX_EXECUTION_TIME = 120` seconds from `config.py`. -/
def MAX_EXECUTION_TIME : Nat := 120

/-- `open(path, 'w')` followed by `write(content)`: create or truncate. -/
def writeFile (fs : FS) (path content : String) : FS :=
  { fs with files := (path, content) :: fs.files.filter (fun p => p.1 != path) }

/-- `os.makedirs(path, exist_ok=True)`. -/
def makeDirs (fs : FS) (path : String) : FS :=
  if fs.dirs.contains path then fs else { fs with dirs := path :: fs.dirs }

/-- Is `path` a regular file. -/
def fileExists (fs : FS) (path : String) : Bool :=
  fs.files.any (fun p => p.1 == path)

/-- Is `path` a directory. -/
def dirExists (fs : FS) (path : String) : Bool :=
  fs.dirs.any (fun d => d == path)

/-- `os.path.exists(path)`: true for files and directories alike. -/
def pathExists (fs : FS) (path : String) : Bool :=
  fileExists fs path || dirExists fs path

/-- `os.remove(path)`. -/
def removeFile (fs : FS) (path : String) : FS :=
  { fs with files := fs.files.filter (fun p => p.1 != path) }

/-- `shutil.rmtree(path)`. -/
def rmtree (fs : FS) (path : String) : FS :=
  { fs with dirs := fs.dirs.filter (fun d => d != path) }

/-- Synchronous response of the submit-code route in `app.py` (the three
ways the request can answer: pydantic validation error, 404, or the
success payload). -/
inductive EndpointResp where
  | validationError (msg : String)
  | notFound
  | accepted (jobId status message : String)
deriving DecidableEq

/-- Body of the `submit_code` route in `app.py` after the pydantic
validator has accepted the code: 404 for an unknown id, otherwise write
the code file, create the per-job result directory, set `status`,
`code_path` and `result_path` on the record by direct dict assignment,
and answer with the `processing` payload.  There is no check of the
job's current status. -/
def submit_code (reg : Registry) (fs : FS) (jobId code : String) :
    EndpointResp × Registry × FS :=
  if (lookupKey reg jobId).isSome = false then (.notFound, reg, fs)
  else
    let codePath := CODE_FOLDER ++ "/" ++ jobId ++ "_process.py"
    let fs1 := writeFile fs codePath code
    let resultPath := RESULTS_FOLDER ++ "/" ++ jobId
    let fs2 := makeDirs fs1 resultPath
    let reg1 := reg.map (fun p =>
      if p.1 = jobId then
        (p.1, setField (setField (setField p.2 "status" "processing")
                "code_path" codePath) "result_path" resultPath)
      else p)
    (.accepted jobId "processing" "Code submitted and processing started",
      reg1, fs2)

/-- One registry update performed by the executor: a status together with
the keyword fields passed to `update_job_status`. -/
structure RegUpdate where
  status : String
  kwargs : List (String × String)
deriving DecidableEq

/-- Apply one executor update through `update_job_status`. -/
def applyUpdate (reg : Registry) (jobId : String) (u : RegUpdate) : Registry :=
  update_job_status reg jobId u.status u.kwargs

/-- Apply a sequence of executor updates in order. -/
def applyUpdates (reg : Registry) (jobId : String) (us : List RegUpdate) :
    Registry :=
  us.foldl (fun r u => applyUpdate r jobId u) reg

/-- Outcome of waiting on the launched sandbox process: either it exits
within the deadline (exit code plus captured stream bytes), or the
deadline elapses first (`stillRunning` records whether the process had
already exited by itself when the wait raised; the last two components
are whatever bytes the process had produced before termination). -/
inductive WaitOutcome where
  | exited (exitCode : Int) (stdoutBytes stderrBytes : String)
  | timedOut (stillRunning : Bool) (truncOut truncErr : String)
deriving DecidableEq

/-- Outcome of the launch itself: either process creation raised (message
and traceback of the exception), or a process ran and its wait concluded
as `w`. -/
inductive LaunchOutcome where
  | failure (msg tb : String)
  | ran (w : WaitOutcome)
deriving DecidableEq

/-- What one platform branch of the executor did: the registry updates it
issued, whether it called `kill()`, whether it drained the pipes with a
second `communicate()` after the kill, and whether the host-side process
is still running when the branch returns. -/
structure ExecResult where
  updates : List RegUpdate
  killed : Bool
  drainedAfterKill : Bool
  processRunningAfter : Bool
deriving DecidableEq

/-- The timeout error detail both branches store. -/
def timeoutError (t : Nat) : String :=
  "Execution timed out after " ++ toString t ++ " seconds"

/-- The non-zero-exit error detail both branches store. -/
def exitError (code : Int) (stderrText : String) : String :=
  "Exit code: " ++ toString code ++ "\nStderr: " ++ stderrText

/-- Python falsiness guard `stdout.decode('utf-8') if stdout else ""`
from `_execute_windows`: byte strings are modelled as strings and
decoding as the identity, so the guard maps the empty byte string to
`""` and decodes everything else. -/
def decodeOrEmpty (b : String) : String :=
  if b = "" then "" else b

/-- `_execute_windows` from `services/sandbox_service.py`, from the point
where the process object exists: on exit within the deadline, decode both
streams (with the falsiness guard), store them under status `running`,
then set `failed` with the exit-code error when the exit code is non-zero
and `completed` otherwise; on `subprocess.TimeoutExpired`, kill
unconditionally, drain the pipes with a second `communicate()` whose
result is discarded, and set `timeout` with the duration error. -/
def execute_windows (t : Nat) (w : WaitOutcome) : ExecResult :=
  match w with
  | .exited c outB errB =>
      let stdout_text := decodeOrEmpty outB
      let stderr_text := decodeOrEmpty errB
      { updates :=
          ⟨"running", [("stdout", stdout_text), ("stderr", stderr_text)]⟩ ::
          (if c ≠ 0 then [⟨"failed", [("error", exitError c stderr_text)]⟩]
           else [⟨"completed", []⟩]),
        killed := false, drainedAfterKill := false,
        processRunningAfter := false }
  | .timedOut _ _ _ =>
      { updates := [⟨"timeout", [("error", timeoutError t)]⟩],
        killed := true, drainedAfterKill := true,
        processRunningAfter := false }

/-- `_execute_unix` from `services/sandbox_service.py`, from the point
where the process object exists: on exit within the deadline, decode both
streams, store them under status `running`, then set `failed` with the
exit-code error when the exit code is non-zero and `completed` otherwise;
on `asyncio.TimeoutError`, kill only if `process.returncode is None`
(i.e. the process is still running) and set `timeout` with the duration
error, without draining the pipes. -/
def execute_unix (t : Nat) (w : WaitOutcome) : ExecResult :=
  match w with
  | .exited c outB errB =>
      let stdout_text := outB
      let stderr_text := errB
      { updates :=
          ⟨"running", [("stdout", stdout_text), ("stderr", stderr_text)]⟩ ::
          (if c ≠ 0 then [⟨"failed", [("error", exitError c stderr_text)]⟩]
           else [⟨"completed", []⟩]),
        killed := false, drainedAfterKill := false,
        processRunningAfter := false }
  | .timedOut stillRunning _ _ =>
      { updates := [⟨"timeout", [("error", timeoutError t)]⟩],
        killed := stillRunning, drainedAfterKill := false,
        processRunningAfter := false }

/-- The platform dispatch in `execute_code_in_sandbox`: the Windows
branch when `os.name == 'nt'`, the Unix branch otherwise. -/
def platformBranch (isWindows : Bool) (t : Nat) (w : WaitOutcome) :
    ExecResult :=
  if isWindows then execute_windows t w else execute_unix t w

/-- `execute_code_in_sandbox` from `services/sandbox_service.py` as the
sequence of registry updates it performs: set `running`, store the
diagnostic `docker_cmd` under a second `running` update, then run the
platform branch; any exception raised before a process exists is caught
by the outer handler, which sets `failed` with the exception text and
traceback.  The background task itself never raises to the caller. -/
def execute_code_in_sandbox (isWindows : Bool) (dockerCmd : String)
    (t : Nat) (o : LaunchOutcome) : List RegUpdate :=
  ⟨"running", []⟩ :: ⟨"running", [("docker_cmd", dockerCmd)]⟩ ::
  (match o with
   | .failure msg tb =>
       [⟨"failed", [("error", "Exception: " ++ msg ++ "\n" ++ tb)]⟩]
   | .ran w => (platformBranch isWindows t w).updates)

/-- Registry after one executor platform-branch run on wait outcome `w`. -/
def regAfterBranch (reg : Registry) (jobId : String) (isWindows : Bool)
    (t : Nat) (w : WaitOutcome) : Registry :=
  applyUpdates reg jobId (platformBranch isWindows t w).updates

/-- The submit-code route end to end: run the pydantic `validate_code`
validator, then the route body, then (when the route answered with the
success payload) the background executor task with outcome `o`; the last
component records whether the executor was dispatched at all.  The
synchronous response is computed before the executor runs. -/
def submitAndRun (reg : Registry) (fs : FS) (jobId code : String)
    (isWindows : Bool) (dockerCmd : String) (t : Nat) (o : LaunchOutcome) :
    EndpointResp × Registry × FS × Bool :=
  match validate_code code with
  | .error msg => (.validationError msg, reg, fs, false)
  | .ok v =>
    match submit_code reg fs jobId v with
    | (.accepted a b c, reg1, fs1) =>
        (.accepted a b c,
         applyUpdates reg1 jobId (execute_code_in_sandbox isWindows dockerCmd t o),
         fs1, true)
    | (resp, reg1, fs1) => (resp, reg1, fs1, false)

/-- One `os.remove` / `shutil.rmtree` step of the sweeper's per-job try
block: look the path key up on the record, skip silently when the key is
absent or the path does not exist, raise (modelled by `.error` carrying
the filesystem as mutated so far) when the removal fails, and remove the
path otherwise.  `removeFails` is the oracle saying which removals
raise. -/
def tryRemove (removeFails : String → Bool) (job : JobRecord)
    (key : String) (isDir : Bool) (fs : FS) : Except FS FS :=
  match lookupField job key with
  | none => .ok fs
  | some p =>
      if pathExists fs p then
        if removeFails p then .error fs
        else .ok (if isDir then rmtree fs p else removeFile fs p)
      else .ok fs

/-- The sweeper's per-job try block from `cleanup_old_jobs`: remove the
input file, the code file and the result directory in that order; the
first failing removal aborts the block (the bare `except: pass`), and the
Bool records whether the block ran to completion. -/
def tryCleanupJob (removeFails : String → Bool) (job : JobRecord)
    (fs : FS) : Bool × FS :=
  match tryRemove removeFails job "file_path" false fs with
  | .error f => (false, f)
  | .ok f1 =>
    match tryRemove removeFails job "code_path" false f1 with
    | .error f => (false, f)
    | .ok f2 =>
      match tryRemove removeFails job "result_path" true f2 with
      | .error f => (false, f)
      | .ok f3 => (true, f3)

/-- The expiry test of the sweeper's collection loop:
`datetime.fromisoformat(job['timestamp']) < cutoff_time`, modelled by the
`expired` oracle on the stored timestamp string (every record created by
`create_job` carries a timestamp). -/
def recordExpired (expired : String → Bool) (rec : JobRecord) : Bool :=
  match lookupField rec "timestamp" with
  | some ts => expired ts
  | none => false

/-- Body of the sweeper's `for job_id in jobs_to_delete` loop: re-read the
record, run the per-job try block, and remove the id from the registry
only when the block ran to completion; a failing block is swallowed and
the loop continues with the next id. -/
def sweepStep (removeFails : String → Bool) (acc : Registry × FS)
    (jobId : String) : Registry × FS :=
  match lookupKey acc.1 jobId with
  | none => acc
  | some job =>
      let r := tryCleanupJob removeFails job acc.2
      (if r.1 then delete_job acc.1 jobId else acc.1, r.2)

/-- One iteration of the `while True` body of `cleanup_old_jobs` in
`services/cleanup_service.py`: collect the ids whose `timestamp` is older
than the cutoff, then run the deletion loop over them. -/
def cleanup_cycle (removeFails : String → Bool) (expired : String → Bool)
    (reg : Registry) (fs : FS) : Registry × FS :=
  let jobs_to_delete :=
    (reg.filter (fun p => recordExpired expired p.2)).map (fun p => p.1)
  jobs_to_delete.foldl (sweepStep removeFails) (reg, fs)

/-- Response of the results route in `app.py`. -/
inductive ResultResp where
  | notFound
  | notReady (status : String)
  | keyError
  | noResults
  | fileResp (name : String)
  | jsonResp (name : String)
deriving DecidableEq

/-- `get_results` from `app.py`: 404 for an unknown id; a 400
not-ready payload when the status is not `completed`; otherwise list the
result directory (`listDir` maps a directory to its regular files, in
listing order); 404 when it is empty; then `csv` requests answer with the
first `.csv` file if any and `excel` requests with the first `.xlsx` or
`.xls` file if any, every unanswered request falls back to the first
`.json` file served as a JSON response, and failing that the first file
is served directly.  `keyError` models the `KeyError` a record without a
`result_path` field would raise (completed jobs always have one). -/
def get_results (reg : Registry) (listDir : String → List String)
    (jobId output_format : String) : ResultResp :=
  match lookupKey reg jobId with
  | none => .notFound
  | some job =>
    if lookupField job "status" ≠ some "completed" then
      .notReady ((lookupField job "status").getD "")
    else
      match lookupField job "result_path" with
      | none => .keyError
      | some result_path =>
        let result_files := listDir result_path
        if result_files.isEmpty then .noResults
        else
          let csv_files := result_files.filter (fun f => strEndsWith f ".csv")
          let excel_files := result_files.filter
            (fun f => strEndsWith f ".xlsx" || strEndsWith f ".xls")
          let json_files := result_files.filter (fun f => strEndsWith f ".json")
          if output_format = "csv" ∧ csv_files ≠ [] then
            .fileResp (csv_files.headD "")
          else if output_format = "excel" ∧ excel_files ≠ [] then
            .fileResp (excel_files.headD "")
          else if json_files ≠ [] then
            .jsonResp (json_files.headD "")
          else
            .fileResp (result_files.headD "")

/-- Terminal statuses of the lifecycle state machine (spec §4.3). -/
def isTerminal (s : String) : Bool :=
  s == "completed" || s == "failed" || s == "timeout"

/-- Status of a job as a poller sees it. -/
def statusOf (reg : Registry) (jobId : String) : Option String :=
  (lookupKey reg jobId).bind (fun r => lookupField r "status")

/-- Any record field of a job as a poller sees it. -/
def fieldOf (reg : Registry) (jobId k : String) : Option String :=
  (lookupKey reg jobId).bind (fun r => lookupField r k)

-- Basic lookup lemmas for the record model.

theorem lookupKey_filter_ne {β : Type} (l : List (String × β)) (a k : String)
    (h : k ≠ a) :
    lookupKey (l.filter (fun p => p.1 != a)) k = lookupKey l k := by
  induction l with
  | nil => rfl
  | cons hd tl ih =>
    obtain ⟨b, v⟩ := hd
    by_cases hb : b = a
    · subst hb
      have hbk : ¬ (b = k) := fun e => h e.symm
      simp [List.filter_cons, lookupKey, hbk, ih]
    · simp only [List.filter_cons]
      by_cases hk : b = k
      · subst hk
        simp [lookupKey, bne_iff_ne, hb]
      · simp [lookupKey, hk, bne_iff_ne, hb, ih]

theorem lookupField_setField_self (r : JobRecord) (k v : String) :
    lookupField (setField r k v) k = some v := by
  simp [lookupField, setField, lookupKey]

theorem lookupField_setField_ne (r : JobRecord) (k v k' : String)
    (h : k' ≠ k) :
    lookupField (setField r k v) k' = lookupField r k' := by
  simp only [lookupField, setField, lookupKey]
  rw [if_neg (fun e => h e.symm)]
  exact lookupKey_filter_ne r k k' h

theorem lookupField_setFields_not_mem (r : JobRecord)
    (kvs : List (String × String)) (k : String)
    (h : ∀ kv ∈ kvs, kv.1 ≠ k) :
    lookupField (setFields r kvs) k = lookupField r k := by
  induction kvs generalizing r with
  | nil => rfl
  | cons hd tl ih =>
    simp only [setFields, List.foldl_cons]
    rw [show List.foldl (fun acc kv => setField acc kv.1 kv.2) (setField r hd.1 hd.2) tl
          = setFields (setField r hd.1 hd.2) tl from rfl]
    rw [ih (setField r hd.1 hd.2) (fun kv hkv => h kv (List.mem_cons_of_mem hd hkv))]
    exact lookupField_setField_ne r hd.1 hd.2 k
      (fun e => h hd (List.mem_cons_self hd tl) e.symm)

theorem lookupKey_map_ite {β : Type} (l : List (String × β)) (j : String)
    (g : β → β) :
    lookupKey (l.map (fun p => if p.1 = j then (p.1, g p.2) else p)) j
      = (lookupKey l j).map g := by
  induction l with
  | nil => rfl
  | cons hd tl ih =>
    obtain ⟨b, v⟩ := hd
    by_cases hb : b = j
    · subst hb
      simp [lookupKey, ih]
    · simp [lookupKey, hb, ih]

theorem lookupKey_map_ite_ne {β : Type} (l : List (String × β)) (j i : String)
    (g : β → β) (h : i ≠ j) :
    lookupKey (l.map (fun p => if p.1 = j then (p.1, g p.2) else p)) i
      = lookupKey l i := by
  induction l with
  | nil => rfl
  | cons hd tl ih =>
    obtain ⟨b, v⟩ := hd
    by_cases hb : b = j
    · subst hb
      have : ¬ (b = i) := fun e => h e.symm
      simp [lookupKey, this, ih]
    · by_cases hi : b = i
      · subst hi
        simp [lookupKey, hb]
      · simp [lookupKey, hb, hi, ih]

theorem update_job_status_lookup_self (reg : Registry) (jobId s : String)
    (kw : List (String × String)) (rec : JobRecord)
    (h : lookupKey reg jobId = some rec) :
    lookupKey (update_job_status reg jobId s kw) jobId
      = some (setFields (setField rec "status" s) kw) := by
  unfold update_job_status
  rw [h]
  simp only [Option.isSome_some, if_pos]
  have hm := lookupKey_map_ite reg jobId
    (fun r => setFields (setField r "status" s) kw)
  rw [h] at hm
  exact hm

theorem update_job_status_lookup_ne (reg : Registry) (jobId s : String)
    (kw : List (String × String)) (i : String) (h : i ≠ jobId) :
    lookupKey (update_job_status reg jobId s kw) i = lookupKey reg i := by
  unfold update_job_status
  split
  · exact lookupKey_map_ite_ne reg jobId i
      (fun r => setFields (setField r "status" s) kw) h
  · rfl

theorem update_job_status_absent (reg : Registry) (jobId s : String)
    (kw : List (String × String)) (h : lookupKey reg jobId = none) :
    update_job_status reg jobId s kw = reg := by
  unfold update_job_status
  rw [h]
  rfl

theorem applyUpdates_lookup_some (reg : Registry) (j : String)
    (us : List RegUpdate) (rec : JobRecord)
    (h : lookupKey reg j = some rec) :
    lookupKey (applyUpdates reg j us) j
      = some (us.foldl
          (fun r u => setFields (setField r "status" u.status) u.kwargs) rec) := by
  induction us generalizing reg rec with
  | nil => exact h
  | cons u tl ih =>
    have h1 : lookupKey (applyUpdate reg j u) j
        = some (setFields (setField rec "status" u.status) u.kwargs) :=
      update_job_status_lookup_self reg j u.status u.kwargs rec h
    simpa [applyUpdates, List.foldl_cons] using
      ih (applyUpdate reg j u) _ h1

theorem applyUpdates_lookup_ne (reg : Registry) (j : String)
    (us : List RegUpdate) (i : String) (h : i ≠ j) :
    lookupKey (applyUpdates reg j us) i = lookupKey reg i := by
  induction us generalizing reg with
  | nil => rfl
  | cons u tl ih =>
    simp only [applyUpdates, List.foldl_cons]
    rw [show List.foldl (fun r u => applyUpdate r j u) (applyUpdate reg j u) tl
          = applyUpdates (applyUpdate reg j u) j tl from rfl]
    rw [ih (applyUpdate reg j u)]
    exact update_job_status_lookup_ne reg j u.status u.kwargs i h

theorem strContains_append_middle (a b c : String) :
    strContains (a ++ b ++ c) b = true := by
  simp only [strContains, decide_eq_true_eq]
  exact ⟨a.data, c.data, by simp⟩

theorem timeoutError_contains (t : Nat) :
    strContains (timeoutError t) (toString t) = true := by
  exact strContains_append_middle "Execution timed out after " (toString t) " seconds"

theorem exitError_contains_code (c : Int) (e : String) :
    strContains (exitError c e) (toString c) = true := by
  simp only [strContains, decide_eq_true_eq, exitError]
  exact ⟨"Exit code: ".data, ("\nStderr: " ++ e).data, by simp⟩

theorem exitError_contains_stderr (c : Int) (e : String) :
    strContains (exitError c e) e = true := by
  simp only [strContains, decide_eq_true_eq, exitError]
  exact ⟨("Exit code: " ++ toString c ++ "\nStderr: ").data, [], by simp⟩

theorem decodeOrEmpty_eq (b : String) : decodeOrEmpty b = b := by
  unfold decodeOrEmpty
  split
  · rename_i h
    exact h.symm
  · rfl

theorem exceptionError_contains (msg tb : String) :
    strContains ("Exception: " ++ msg ++ "\n" ++ tb) msg = true := by
  simp only [strContains, decide_eq_true_eq]
  exact ⟨"Exception: ".data, ("\n" ++ tb).data, by simp⟩

theorem makeDirs_files (fs : FS) (p : String) :
    (makeDirs fs p).files = fs.files := by
  unfold makeDirs
  split <;> rfl

theorem lookupKey_filter_self {β : Type} (l : List (String × β)) (a : String) :
    lookupKey (l.filter (fun p => p.1 != a)) a = none := by
  induction l with
  | nil => rfl
  | cons hd tl ih =>
    by_cases hb : hd.1 = a
    · simp [List.filter_cons, hb, ih]
    · simp [List.filter_cons, bne_iff_ne, hb, lookupKey, ih]

theorem lookupKey_none_filter {β : Type} (l : List (String × β))
    (q : String × β → Bool) (k : String) (h : lookupKey l k = none) :
    lookupKey (l.filter q) k = none := by
  induction l with
  | nil => rfl
  | cons hd tl ih =>
    by_cases hk : hd.1 = k
    · simp [lookupKey, hk] at h
    · have ht : lookupKey tl k = none := by
        simpa [lookupKey, hk] using h
      by_cases hq : q hd
      · simp [List.filter_cons, hq, lookupKey, hk, ih ht]
      · simp [List.filter_cons, hq, ih ht]

theorem lookupKey_some_mem {β : Type} (l : List (String × β)) (k : String)
    (v : β) (h : lookupKey l k = some v) : (k, v) ∈ l := by
  induction l with
  | nil => simp [lookupKey] at h
  | cons hd tl ih =>
    by_cases hk : hd.1 = k
    · simp only [lookupKey, hk, if_pos] at h
      obtain ⟨b2, v2⟩ := hd
      simp only at hk
      subst hk
      simp only [Option.some.injEq] at h
      subst h
      exact List.mem_cons_self _ _
    · simp only [lookupKey, hk, if_neg, ite_false] at h
      exact List.mem_cons_of_mem hd (ih h)

theorem mem_nodup_lookupKey {β : Type} (l : List (String × β)) (k : String)
    (v : β) (hnd : (l.map Prod.fst).Nodup) (h : (k, v) ∈ l) :
    lookupKey l k = some v := by
  induction l with
  | nil => simp at h
  | cons hd tl ih =>
    rcases List.mem_cons.mp h with heq | hmem
    · subst heq
      simp [lookupKey]
    · have hk : hd.1 ≠ k := by
        intro e
        have : k ∈ tl.map Prod.fst := List.mem_map.mpr ⟨(k, v), hmem, rfl⟩
        rw [List.map_cons, List.nodup_cons] at hnd
        exact hnd.1 (e ▸ this)
      rw [List.map_cons, List.nodup_cons] at hnd
      simp only [lookupKey, hk, if_neg, ite_false]
      exact ih hnd.2 hmem

theorem submit_code_present (reg : Registry) (fs : FS) (jobId code : String)
    (h : (lookupKey reg jobId).isSome = true) :
    submit_code reg fs jobId code =
      (.accepted jobId "processing" "Code submitted and processing started",
       reg.map (fun p =>
         if p.1 = jobId then
           (p.1, setField (setField (setField p.2 "status" "processing")
                   "code_path" (CODE_FOLDER ++ "/" ++ jobId ++ "_process.py"))
                 "result_path" (RESULTS_FOLDER ++ "/" ++ jobId))
         else p),
       makeDirs (writeFile fs (CODE_FOLDER ++ "/" ++ jobId ++ "_process.py") code)
         (RESULTS_FOLDER ++ "/" ++ jobId)) := by
  unfold submit_code
  rw [h]
  rfl

theorem submit_code_record (reg : Registry) (fs : FS) (jobId code : String)
    (rec : JobRecord) (h : lookupKey reg jobId = some rec) :
    lookupKey (submit_code reg fs jobId code).2.1 jobId
      = some (setField (setField (setField rec "status" "processing")
          "code_path" (CODE_FOLDER ++ "/" ++ jobId ++ "_process.py"))
          "result_path" (RESULTS_FOLDER ++ "/" ++ jobId)) := by
  rw [submit_code_present reg fs jobId code (by rw [h]; rfl)]
  have hm := lookupKey_map_ite reg jobId
    (fun r => setField (setField (setField r "status" "processing")
        "code_path" (CODE_FOLDER ++ "/" ++ jobId ++ "_process.py"))
        "result_path" (RESULTS_FOLDER ++ "/" ++ jobId))
  rw [h] at hm
  exact hm

theorem submit_code_statusOf (reg : Registry) (fs : FS) (jobId code : String)
    (rec : JobRecord) (h : lookupKey reg jobId = some rec) :
    statusOf (submit_code reg fs jobId code).2.1 jobId = some "processing" := by
  simp only [statusOf, submit_code_record reg fs jobId code rec h,
    Option.some_bind]
  rw [lookupField_setField_ne _ _ _ _ (by decide),
      lookupField_setField_ne _ _ _ _ (by decide)]
  exact lookupField_setField_self rec "status" "processing"

theorem fieldOf_applyUpdates (reg : Registry) (j : String)
    (us : List RegUpdate) (rec : JobRecord)
    (h : lookupKey reg j = some rec) (k : String) :
    fieldOf (applyUpdates reg j us) j k
      = lookupField (us.foldl
          (fun r u => setFields (setField r "status" u.status) u.kwargs) rec) k := by
  simp only [fieldOf, applyUpdates_lookup_some reg j us rec h, Option.some_bind]

theorem statusOf_eq_fieldOf (reg : Registry) (j : String) :
    statusOf reg j = fieldOf reg j "status" := rfl

/-- Claim C10: for a job id present in the registry, `update_job_status`
changes only the `status` field and the explicitly passed keyword fields
of that record — every other field (in particular `id`, `filename` and
`timestamp` when they are not passed) keeps its value — the records of
all other job ids are unchanged, and an update for an id not in the
registry leaves the whole registry unchanged. -/
theorem c10_update_frame (reg : Registry) (jobId s : String)
    (kw : List (String × String)) :
    (∀ rec, lookupKey reg jobId = some rec →
      (∀ k, k ≠ "status" → (∀ kv ∈ kw, kv.1 ≠ k) →
        fieldOf (update_job_status reg jobId s kw) jobId k = lookupField rec k))
    ∧ (∀ i, i ≠ jobId →
        lookupKey (update_job_status reg jobId s kw) i = lookupKey reg i)
    ∧ (lookupKey reg jobId = none → update_job_status reg jobId s kw = reg) := by
  refine ⟨?_, ?_, ?_⟩
  · intro rec hrec k hks hkw
    have h1 := update_job_status_lookup_self reg jobId s kw rec hrec
    simp only [fieldOf, h1, Option.some_bind]
    rw [lookupField_setFields_not_mem _ kw k hkw]
    exact lookupField_setField_ne rec "status" s k hks
  · intro i hi
    exact update_job_status_lookup_ne reg jobId s kw i hi
  · intro h
    exact update_job_status_absent reg jobId s kw h

/-- Concrete witness for C10: updating job `j` with status `running` and
keyword field `stdout` leaves `filename` on `j` and the record of job `k`
unchanged, and updating the unknown id `x` changes nothing. -/
theorem c10_update_frame_witness :
    fieldOf (update_job_status
        [("j", [("id", "j"), ("filename", "a.csv"), ("status", "uploaded"),
                ("timestamp", "T")]),
         ("k", [("status", "uploaded")])]
        "j" "running" [("stdout", "out")]) "j" "filename" = some "a.csv"
    ∧ lookupKey (update_job_status
        [("j", [("id", "j"), ("filename", "a.csv"), ("status", "uploaded"),
                ("timestamp", "T")]),
         ("k", [("status", "uploaded")])]
        "j" "running" [("stdout", "out")]) "k" = some [("status", "uploaded")]
    ∧ update_job_status
        [("j", [("status", "uploaded")])] "x" "running" []
        = [("j", [("status", "uploaded")])] := by
  refine ⟨?_, ?_, ?_⟩
  · have h := (c10_update_frame
      [("j", [("id", "j"), ("filename", "a.csv"), ("status", "uploaded"),
              ("timestamp", "T")]),
       ("k", [("status", "uploaded")])] "j" "running" [("stdout", "out")]).1
      [("id", "j"), ("filename", "a.csv"), ("status", "uploaded"),
       ("timestamp", "T")] rfl "filename" (by decide) (by decide)
    rw [h]
    rfl
  · exact (c10_update_frame
      [("j", [("id", "j"), ("filename", "a.csv"), ("status", "uploaded"),
              ("timestamp", "T")]),
       ("k", [("status", "uploaded")])] "j" "running" [("stdout", "out")]).2.1
      "k" (by decide)
  · exact (c10_update_frame
      [("j", [("status", "uploaded")])] "x" "running" []).2.2 rfl

/-- Claim C4: every submission containing a denylist token is rejected by
`validate_code`, and then the executor is never dispatched by the
submit-code pipeline; a submission containing none of the tokens passes
validation unchanged. -/
theorem c4_denylist :
    (∀ s tok, tok ∈ forbidden_modules → strContains s tok = true →
      (∃ m, validate_code s
          = .error ("Forbidden module or function detected: " ++ m))
      ∧ ∀ reg fs jobId isWindows dockerCmd t o,
          (submitAndRun reg fs jobId s isWindows dockerCmd t o).2.2.2 = false)
    ∧ (∀ s, (∀ tok ∈ forbidden_modules, strContains s tok = false) →
        validate_code s = .ok s) := by
  constructor
  · intro s tok htok hcon
    have hsome : (forbidden_modules.find? (fun m => strContains s m)).isSome := by
      rw [List.find?_isSome]
      exact ⟨tok, htok, hcon⟩
    obtain ⟨m, hm⟩ := Option.isSome_iff_exists.mp hsome
    refine ⟨⟨m, by simp [validate_code, hm]⟩, ?_⟩
    intro reg fs jobId isWindows dockerCmd t o
    simp [submitAndRun, validate_code, hm]
  · intro s hnone
    have hfind : forbidden_modules.find? (fun m => strContains s m) = none := by
      rw [List.find?_eq_none]
      intro x hx
      simp [hnone x hx]
    simp [validate_code, hfind]

/-- Concrete witness for C4: a submission containing `pty` is rejected and
never dispatched, and a harmless submission passes unchanged. -/
theorem c4_denylist_witness :
    (∃ m, validate_code "import pty"
        = .error ("Forbidden module or function detected: " ++ m))
    ∧ (submitAndRun [("j", [("status", "uploaded")])] ⟨[], []⟩ "j"
        "import pty" false "docker run" 120 (.ran (.exited 0 "" ""))).2.2.2
        = false
    ∧ validate_code "print 42" = .ok "print 42" := by
  refine ⟨?_, ?_, ?_⟩
  · exact (c4_denylist.1 "import pty" "pty" (by decide) (by decide)).1
  · exact (c4_denylist.1 "import pty" "pty" (by decide) (by decide)).2
      [("j", [("status", "uploaded")])] ⟨[], []⟩ "j" false "docker run" 120
      (.ran (.exited 0 "" ""))
  · exact c4_denylist.2 "print 42" (by decide)

/-- Claim C6 (amended): on a timed-out execution the two platform branches
write the same registry record — a single `timeout` update carrying the
duration error and no captured output, so partially produced output is
discarded by both.  The branches differ only host-locally: the Windows
branch drains the pipes after the kill (discarding the result) and kills
unconditionally, while the Unix branch does not drain and kills exactly
when the process has not already exited. -/
theorem c6_amended (t : Nat) (sr : Bool) (po pe : String) :
    (execute_windows t (.timedOut sr po pe)).updates
      = (execute_unix t (.timedOut sr po pe)).updates
    ∧ (execute_windows t (.timedOut sr po pe)).updates
      = [⟨"timeout", [("error", timeoutError t)]⟩]
    ∧ (execute_windows t (.timedOut sr po pe)).drainedAfterKill = true
    ∧ (execute_unix t (.timedOut sr po pe)).drainedAfterKill = false
    ∧ (execute_windows t (.timedOut sr po pe)).killed = true
    ∧ (execute_unix t (.timedOut sr po pe)).killed = sr :=
  ⟨rfl, rfl, rfl, rfl, rfl, rfl⟩

/-- Counterexample to C6 as stated: on a concrete timed-out execution that
produced partial output, the Windows branch and the Unix branch write
exactly the same registry updates (and hence the same registry record) —
neither stores the partial output. -/
theorem c6_counterexample :
    (execute_windows 120 (.timedOut true "some output" "some errors")).updates
      = (execute_unix 120 (.timedOut true "some output" "some errors")).updates
    ∧ applyUpdates [("j", [("status", "running")])] "j"
        (execute_windows 120 (.timedOut true "some output" "some errors")).updates
      = applyUpdates [("j", [("status", "running")])] "j"
        (execute_unix 120 (.timedOut true "some output" "some errors")).updates :=
  ⟨rfl, rfl⟩

/-- Counterexample to C1 as stated: starting from a job in `uploaded`,
submit code `print 1` and then code `print 2` to the same job.  The
second call is not rejected with any conflict signal — it answers with
the same success payload — and it overwrites the first submission's
stored code file. -/
theorem c1_counterexample :
    lookupKey (submit_code [("j", [("status", "uploaded")])] ⟨[], []⟩
        "j" "print 1").2.2.files "/tmp/file_processor/code/j_process.py"
      = some "print 1"
    ∧ (submit_code
        (submit_code [("j", [("status", "uploaded")])] ⟨[], []⟩ "j" "print 1").2.1
        (submit_code [("j", [("status", "uploaded")])] ⟨[], []⟩ "j" "print 1").2.2
        "j" "print 2").1
      = .accepted "j" "processing" "Code submitted and processing started"
    ∧ lookupKey (submit_code
        (submit_code [("j", [("status", "uploaded")])] ⟨[], []⟩ "j" "print 1").2.1
        (submit_code [("j", [("status", "uploaded")])] ⟨[], []⟩ "j" "print 1").2.2
        "j" "print 2").2.2.files "/tmp/file_processor/code/j_process.py"
      = some "print 2" :=
  ⟨rfl, rfl, rfl⟩

/-- Claim C1 (amended): `submit_code` never answers with a conflict — it
checks only existence.  For any job present in the registry, whatever its
current status (including a job that already received code), the call is
accepted, the stored code file is (over)written with the new code,
`status` is reset to `processing` and `code_path` / `result_path` are set;
only an unknown job id is rejected (404), leaving registry and filesystem
unchanged. -/
theorem c1_amended (reg : Registry) (fs : FS) (jobId code : String) :
    (∀ rec, lookupKey reg jobId = some rec →
      (submit_code reg fs jobId code).1
          = .accepted jobId "processing" "Code submitted and processing started"
      ∧ statusOf (submit_code reg fs jobId code).2.1 jobId = some "processing"
      ∧ fieldOf (submit_code reg fs jobId code).2.1 jobId "code_path"
          = some (CODE_FOLDER ++ "/" ++ jobId ++ "_process.py")
      ∧ fieldOf (submit_code reg fs jobId code).2.1 jobId "result_path"
          = some (RESULTS_FOLDER ++ "/" ++ jobId)
      ∧ lookupKey (submit_code reg fs jobId code).2.2.files
            (CODE_FOLDER ++ "/" ++ jobId ++ "_process.py") = some code)
    ∧ (lookupKey reg jobId = none →
        submit_code reg fs jobId code = (.notFound, reg, fs)) := by
  constructor
  · intro rec hrec
    have hs : (lookupKey reg jobId).isSome = true := by rw [hrec]; rfl
    refine ⟨?_, submit_code_statusOf reg fs jobId code rec hrec, ?_, ?_, ?_⟩
    · rw [submit_code_present reg fs jobId code hs]
    · simp only [fieldOf, submit_code_record reg fs jobId code rec hrec,
        Option.some_bind]
      rw [lookupField_setField_ne _ _ _ _ (by decide)]
      exact lookupField_setField_self _ "code_path" _
    · simp only [fieldOf, submit_code_record reg fs jobId code rec hrec,
        Option.some_bind]
      exact lookupField_setField_self _ "result_path" _
    · rw [submit_code_present reg fs jobId code hs]
      simp [makeDirs_files, writeFile, lookupKey]
  · intro h
    unfold submit_code
    rw [h]
    rfl

/-- Concrete witness for C1 (amended): a job whose status is already
`completed` is accepted again and reset to `processing`, and an unknown
id gets 404 with nothing changed. -/
theorem c1_amended_witness :
    (submit_code [("j", [("status", "completed")])] ⟨[], []⟩ "j" "print 9").1
      = .accepted "j" "processing" "Code submitted and processing started"
    ∧ statusOf (submit_code [("j", [("status", "completed")])] ⟨[], []⟩
        "j" "print 9").2.1 "j" = some "processing"
    ∧ submit_code [("j", [("status", "completed")])] ⟨[], []⟩ "x" "print 9"
      = (.notFound, [("j", [("status", "completed")])], ⟨[], []⟩) := by
  refine ⟨?_, ?_, ?_⟩
  · exact ((c1_amended [("j", [("status", "completed")])] ⟨[], []⟩ "j"
      "print 9").1 [("status", "completed")] rfl).1
  · exact ((c1_amended [("j", [("status", "completed")])] ⟨[], []⟩ "j"
      "print 9").1 [("status", "completed")] rfl).2.1
  · exact (c1_amended [("j", [("status", "completed")])] ⟨[], []⟩ "x"
      "print 9").2 rfl

theorem sweepStep_lookup (removeFails : String → Bool) (acc : Registry × FS)
    (i j : String) :
    lookupKey (sweepStep removeFails acc i).1 j = lookupKey acc.1 j
    ∨ lookupKey (sweepStep removeFails acc i).1 j = none := by
  unfold sweepStep
  cases h : lookupKey acc.1 i with
  | none => left; rfl
  | some job =>
    simp only
    by_cases hr : (tryCleanupJob removeFails job acc.2).1 = true
    · simp only [hr, if_true]
      by_cases hij : i = j
      · subst hij
        right
        exact lookupKey_filter_self acc.1 i
      · left
        exact lookupKey_filter_ne acc.1 i j (fun e => hij e.symm)
    · simp only [hr, if_false]
      left
      rfl

theorem sweep_fold_lookup (removeFails : String → Bool) (ids : List String)
    (st : Registry × FS) (j : String) :
    lookupKey (ids.foldl (sweepStep removeFails) st).1 j = lookupKey st.1 j
    ∨ lookupKey (ids.foldl (sweepStep removeFails) st).1 j = none := by
  induction ids generalizing st with
  | nil => left; rfl
  | cons i tl ih =>
    simp only [List.foldl_cons]
    rcases ih (sweepStep removeFails st i) with h | h
    · rcases sweepStep_lookup removeFails st i j with h2 | h2
      · left; rw [h, h2]
      · right; rw [h, h2]
    · right; exact h

/-- Counterexample to C2 as stated: a job sitting in the terminal state
`completed` is moved back to `processing` by a `submit_code` call — an
operation other than full deletion changes a terminal status. -/
theorem c2_counterexample :
    statusOf [("j", [("status", "completed")])] "j" = some "completed"
    ∧ isTerminal "completed" = true
    ∧ statusOf (submit_code [("j", [("status", "completed")])] ⟨[], []⟩
        "j" "df.head()").2.1 "j" = some "processing" :=
  ⟨rfl, rfl, rfl⟩

/-- Claim C2 (amended): within a single executor run the status sequence
is monotone forward — every update before the last carries status
`running` and the last update is terminal, so no executor update follows
a terminal one in the same run; the sweeper never rewrites a surviving
record (it either leaves a job's registry entry exactly as it was or
removes it entirely); but terminal states are not preserved by
`submit_code`, which performs no status check and resets any existing
job — terminal or not — to `processing`. -/
theorem c2_amended :
    (∀ isWindows dockerCmd t o,
      ((execute_code_in_sandbox isWindows dockerCmd t o).dropLast.all
          (fun u => u.status == "running") = true)
      ∧ ∃ u, (execute_code_in_sandbox isWindows dockerCmd t o).getLast? = some u
          ∧ isTerminal u.status = true)
    ∧ (∀ removeFails expired reg fs j,
        lookupKey (cleanup_cycle removeFails expired reg fs).1 j
            = lookupKey reg j
        ∨ lookupKey (cleanup_cycle removeFails expired reg fs).1 j = none)
    ∧ (∀ reg fs j code rec, lookupKey reg j = some rec →
        statusOf (submit_code reg fs j code).2.1 j = some "processing") := by
  refine ⟨?_, ?_, ?_⟩
  · intro isWindows dockerCmd t o
    cases o with
    | failure msg tb =>
      exact ⟨by simp [execute_code_in_sandbox],
        ⟨⟨"failed", [("error", "Exception: " ++ msg ++ "\n" ++ tb)]⟩,
         by simp [execute_code_in_sandbox], rfl⟩⟩
    | ran w =>
      cases w with
      | exited c outB errB =>
        by_cases hc : c = 0
        · subst hc
          cases isWindows
          · exact ⟨by simp [execute_code_in_sandbox, platformBranch,
                execute_windows, execute_unix],
              ⟨⟨"completed", []⟩, by simp [execute_code_in_sandbox,
                platformBranch, execute_windows, execute_unix], rfl⟩⟩
          · exact ⟨by simp [execute_code_in_sandbox, platformBranch,
                execute_windows, execute_unix],
              ⟨⟨"completed", []⟩, by simp [execute_code_in_sandbox,
                platformBranch, execute_windows, execute_unix], rfl⟩⟩
        · cases isWindows
          · exact ⟨by simp [execute_code_in_sandbox, platformBranch,
                execute_windows, execute_unix, hc],
              ⟨⟨"failed", [("error", exitError c errB)]⟩,
               by simp [execute_code_in_sandbox, platformBranch,
                execute_windows, execute_unix, hc], rfl⟩⟩
          · exact ⟨by simp [execute_code_in_sandbox, platformBranch,
                execute_windows, execute_unix, hc],
              ⟨⟨"failed", [("error", exitError c (decodeOrEmpty errB))]⟩,
               by simp [execute_code_in_sandbox, platformBranch,
                execute_windows, execute_unix, hc], rfl⟩⟩
      | timedOut sr po pe =>
        cases isWindows
        · exact ⟨by simp [execute_code_in_sandbox, platformBranch,
              execute_windows, execute_unix],
            ⟨⟨"timeout", [("error", timeoutError t)]⟩,
             by simp [execute_code_in_sandbox, platformBranch,
              execute_windows, execute_unix], rfl⟩⟩
        · exact ⟨by simp [execute_code_in_sandbox, platformBranch,
              execute_windows, execute_unix],
            ⟨⟨"timeout", [("error", timeoutError t)]⟩,
             by simp [execute_code_in_sandbox, platformBranch,
              execute_windows, execute_unix], rfl⟩⟩
  · intro removeFails expired reg fs j
    exact sweep_fold_lookup removeFails _ (reg, fs) j
  · intro reg fs j code rec hrec
    exact submit_code_statusOf reg fs j code rec hrec

/-- Concrete witness for C2 (amended): a concrete Unix timeout run has all
non-final updates `running` and a terminal last update, and submitting to
a concrete job in terminal state `timeout` resets it to `processing`. -/
theorem c2_amended_witness :
    ((execute_code_in_sandbox false "docker run" 120
        (.ran (.timedOut true "" ""))).dropLast.all
        (fun u => u.status == "running") = true)
    ∧ statusOf (submit_code [("j", [("status", "timeout")])] ⟨[], []⟩
        "j" "x = 1").2.1 "j" = some "processing" :=
  ⟨(c2_amended.1 false "docker run" 120 (.ran (.timedOut true "" ""))).1,
   c2_amended.2.2 [("j", [("status", "timeout")])] ⟨[], []⟩ "j" "x = 1"
     [("status", "timeout")] rfl⟩

/-- Claim C3: when the sandboxed process does not exit within the
configured timeout, the branch kills it (the Windows branch
unconditionally, the Unix branch exactly when it has not already exited),
the process is not running when the branch returns, and the job's status
is set to `timeout` — never `completed` — with an error detail naming the
configured duration in seconds. -/
theorem c3_timeout (isWindows : Bool) (t : Nat) (sr : Bool) (po pe : String)
    (reg : Registry) (jobId : String) (rec : JobRecord)
    (hrec : lookupKey reg jobId = some rec) :
    (platformBranch isWindows t (.timedOut sr po pe)).updates
        = [⟨"timeout", [("error", timeoutError t)]⟩]
    ∧ (platformBranch isWindows t (.timedOut sr po pe)).killed
        = (isWindows || sr)
    ∧ (platformBranch isWindows t (.timedOut sr po pe)).processRunningAfter
        = false
    ∧ statusOf (regAfterBranch reg jobId isWindows t (.timedOut sr po pe)) jobId
        = some "timeout"
    ∧ statusOf (regAfterBranch reg jobId isWindows t (.timedOut sr po pe)) jobId
        ≠ some "completed"
    ∧ fieldOf (regAfterBranch reg jobId isWindows t (.timedOut sr po pe))
        jobId "error" = some (timeoutError t)
    ∧ strContains (timeoutError t) (toString t) = true := by
  have hupd : (platformBranch isWindows t (.timedOut sr po pe)).updates
      = [⟨"timeout", [("error", timeoutError t)]⟩] := by
    cases isWindows <;> rfl
  have hstat : statusOf (regAfterBranch reg jobId isWindows t
      (.timedOut sr po pe)) jobId = some "timeout" := by
    rw [statusOf_eq_fieldOf]
    unfold regAfterBranch
    rw [hupd, fieldOf_applyUpdates reg jobId _ rec hrec "status"]
    show lookupField (setField (setField rec "status" "timeout")
        "error" (timeoutError t)) "status" = some "timeout"
    rw [lookupField_setField_ne _ _ _ _ (by decide)]
    exact lookupField_setField_self rec "status" "timeout"
  refine ⟨hupd, by cases isWindows <;> rfl, by cases isWindows <;> rfl,
    hstat, ?_, ?_, timeoutError_contains t⟩
  · rw [hstat]
    simp
  · unfold regAfterBranch
    rw [hupd, fieldOf_applyUpdates reg jobId _ rec hrec "error"]
    show lookupField (setField (setField rec "status" "timeout")
        "error" (timeoutError t)) "error" = some (timeoutError t)
    exact lookupField_setField_self _ "error" _

/-- Concrete witness for C3: a concrete Unix timeout run on a registry
with one running job ends with status `timeout` and the duration error,
and the error names the 120-second limit. -/
theorem c3_timeout_witness :
    statusOf (regAfterBranch [("j", [("status", "running")])] "j" false 120
        (.timedOut true "partial out" "partial err")) "j" = some "timeout"
    ∧ fieldOf (regAfterBranch [("j", [("status", "running")])] "j" false 120
        (.timedOut true "partial out" "partial err")) "j" "error"
      = some (timeoutError 120)
    ∧ strContains (timeoutError 120) (toString 120) = true := by
  have h := c3_timeout false 120 true "partial out" "partial err"
    [("j", [("status", "running")])] "j" [("status", "running")] rfl
  exact ⟨h.2.2.2.1, h.2.2.2.2.2.1, h.2.2.2.2.2.2⟩

/-- Claim C5: when the sandboxed process exits within the deadline, both
platform branches decode and store the captured streams on the record,
the job ends `completed` exactly when the exit code is zero, and a
non-zero exit code ends `failed` with an error detail containing the exit
code and the captured standard-error text. -/
theorem c5_exit (isWindows : Bool) (t : Nat) (c : Int) (outB errB : String)
    (reg : Registry) (jobId : String) (rec : JobRecord)
    (hrec : lookupKey reg jobId = some rec) :
    fieldOf (regAfterBranch reg jobId isWindows t (.exited c outB errB))
        jobId "stdout" = some outB
    ∧ fieldOf (regAfterBranch reg jobId isWindows t (.exited c outB errB))
        jobId "stderr" = some errB
    ∧ (statusOf (regAfterBranch reg jobId isWindows t (.exited c outB errB))
        jobId = some "completed" ↔ c = 0)
    ∧ (c ≠ 0 →
        statusOf (regAfterBranch reg jobId isWindows t (.exited c outB errB))
            jobId = some "failed"
        ∧ fieldOf (regAfterBranch reg jobId isWindows t (.exited c outB errB))
            jobId "error" = some (exitError c errB)
        ∧ strContains (exitError c errB) (toString c) = true
        ∧ strContains (exitError c errB) errB = true) := by
  have hupd : (platformBranch isWindows t (.exited c outB errB)).updates
      = ⟨"running", [("stdout", outB), ("stderr", errB)]⟩ ::
        (if c ≠ 0 then [⟨"failed", [("error", exitError c errB)]⟩]
         else [⟨"completed", []⟩]) := by
    cases isWindows
    · rfl
    · show (execute_windows t (.exited c outB errB)).updates = _
      unfold execute_windows
      simp only [decodeOrEmpty_eq]
  by_cases hc : c = 0
  · subst hc
    have hupd0 : (platformBranch isWindows t (.exited 0 outB errB)).updates
        = [⟨"running", [("stdout", outB), ("stderr", errB)]⟩,
           ⟨"completed", []⟩] := by
      rw [hupd]
      simp
    have hstat0 : statusOf (regAfterBranch reg jobId isWindows t
        (.exited 0 outB errB)) jobId = some "completed" := by
      rw [statusOf_eq_fieldOf]
      unfold regAfterBranch
      rw [hupd0, fieldOf_applyUpdates reg jobId _ rec hrec "status"]
      show lookupField (setField (setField (setField
          (setField rec "status" "running") "stdout" outB) "stderr" errB)
          "status" "completed") "status" = some "completed"
      exact lookupField_setField_self _ "status" "completed"
    refine ⟨?_, ?_, ⟨fun _ => rfl, fun _ => hstat0⟩, fun h => absurd rfl h⟩
    · unfold regAfterBranch
      rw [hupd0, fieldOf_applyUpdates reg jobId _ rec hrec "stdout"]
      show lookupField (setField (setField (setField
          (setField rec "status" "running") "stdout" outB) "stderr" errB)
          "status" "completed") "stdout" = some outB
      rw [lookupField_setField_ne _ _ _ _ (by decide),
          lookupField_setField_ne _ _ _ _ (by decide)]
      exact lookupField_setField_self _ "stdout" outB
    · unfold regAfterBranch
      rw [hupd0, fieldOf_applyUpdates reg jobId _ rec hrec "stderr"]
      show lookupField (setField (setField (setField
          (setField rec "status" "running") "stdout" outB) "stderr" errB)
          "status" "completed") "stderr" = some errB
      rw [lookupField_setField_ne _ _ _ _ (by decide)]
      exact lookupField_setField_self _ "stderr" errB
  · have hupd1 : (platformBranch isWindows t (.exited c outB errB)).updates
        = [⟨"running", [("stdout", outB), ("stderr", errB)]⟩,
           ⟨"failed", [("error", exitError c errB)]⟩] := by
      rw [hupd]
      simp [hc]
    have hstatF : statusOf (regAfterBranch reg jobId isWindows t
        (.exited c outB errB)) jobId = some "failed" := by
      rw [statusOf_eq_fieldOf]
      unfold regAfterBranch
      rw [hupd1, fieldOf_applyUpdates reg jobId _ rec hrec "status"]
      show lookupField (setField (setField (setField (setField
          (setField rec "status" "running") "stdout" outB) "stderr" errB)
          "status" "failed") "error" (exitError c errB)) "status"
          = some "failed"
      rw [lookupField_setField_ne _ _ _ _ (by decide)]
      exact lookupField_setField_self _ "status" "failed"
    have herrF : fieldOf (regAfterBranch reg jobId isWindows t
        (.exited c outB errB)) jobId "error" = some (exitError c errB) := by
      unfold regAfterBranch
      rw [hupd1, fieldOf_applyUpdates reg jobId _ rec hrec "error"]
      show lookupField (setField (setField (setField (setField
          (setField rec "status" "running") "stdout" outB) "stderr" errB)
          "status" "failed") "error" (exitError c errB)) "error"
          = some (exitError c errB)
      exact lookupField_setField_self _ "error" _
    refine ⟨?_, ?_, iff_of_false (by rw [hstatF]; simp) hc,
      fun _ => ⟨hstatF, herrF, exitError_contains_code c errB,
        exitError_contains_stderr c errB⟩⟩
    · unfold regAfterBranch
      rw [hupd1, fieldOf_applyUpdates reg jobId _ rec hrec "stdout"]
      show lookupField (setField (setField (setField (setField
          (setField rec "status" "running") "stdout" outB) "stderr" errB)
          "status" "failed") "error" (exitError c errB)) "stdout"
          = some outB
      rw [lookupField_setField_ne _ _ _ _ (by decide),
          lookupField_setField_ne _ _ _ _ (by decide),
          lookupField_setField_ne _ _ _ _ (by decide)]
      exact lookupField_setField_self _ "stdout" outB
    · unfold regAfterBranch
      rw [hupd1, fieldOf_applyUpdates reg jobId _ rec hrec "stderr"]
      show lookupField (setField (setField (setField (setField
          (setField rec "status" "running") "stdout" outB) "stderr" errB)
          "status" "failed") "error" (exitError c errB)) "stderr"
          = some errB
      rw [lookupField_setField_ne _ _ _ _ (by decide),
          lookupField_setField_ne _ _ _ _ (by decide)]
      exact lookupField_setField_self _ "stderr" errB

/-- Concrete witness for C5: a zero exit code completes with the streams
stored, a non-zero exit code fails with the exit-code error. -/
theorem c5_exit_witness :
    statusOf (regAfterBranch [("j", [("status", "running")])] "j" false 120
        (.exited 0 "OUT" "ERR")) "j" = some "completed"
    ∧ fieldOf (regAfterBranch [("j", [("status", "running")])] "j" false 120
        (.exited 0 "OUT" "ERR")) "j" "stdout" = some "OUT"
    ∧ statusOf (regAfterBranch [("j", [("status", "running")])] "j" true 120
        (.exited 7 "OUT" "ERR")) "j" = some "failed"
    ∧ fieldOf (regAfterBranch [("j", [("status", "running")])] "j" true 120
        (.exited 7 "OUT" "ERR")) "j" "error" = some (exitError 7 "ERR") := by
  have h0 := c5_exit false 120 0 "OUT" "ERR" [("j", [("status", "running")])]
    "j" [("status", "running")] rfl
  have h7 := c5_exit true 120 7 "OUT" "ERR" [("j", [("status", "running")])]
    "j" [("status", "running")] rfl
  exact ⟨h0.2.2.1.mpr rfl, h0.1, (h7.2.2.2 (by decide)).1,
    (h7.2.2.2 (by decide)).2.1⟩

/-- Claim C9: when constructing or launching the sandbox invocation raises
before a process exists, the executor's exception handler transitions the
job to `failed` with an error detail containing the raised exception's
description, and the submitting caller still receives the synchronous
success payload — no error is returned to it. -/
theorem c9_launch_failure (reg : Registry) (fs : FS) (jobId code : String)
    (isWindows : Bool) (dockerCmd : String) (t : Nat) (msg tb : String)
    (rec : JobRecord) (hrec : lookupKey reg jobId = some rec)
    (hval : validate_code code = .ok code) :
    (submitAndRun reg fs jobId code isWindows dockerCmd t (.failure msg tb)).1
      = .accepted jobId "processing" "Code submitted and processing started"
    ∧ statusOf (submitAndRun reg fs jobId code isWindows dockerCmd t
        (.failure msg tb)).2.1 jobId = some "failed"
    ∧ fieldOf (submitAndRun reg fs jobId code isWindows dockerCmd t
        (.failure msg tb)).2.1 jobId "error"
      = some ("Exception: " ++ msg ++ "\n" ++ tb)
    ∧ strContains ("Exception: " ++ msg ++ "\n" ++ tb) msg = true := by
  have hs : (lookupKey reg jobId).isSome = true := by rw [hrec]; rfl
  have hpres := submit_code_present reg fs jobId code hs
  have hrec1 := submit_code_record reg fs jobId code rec hrec
  simp only [hpres] at hrec1
  have hexec : execute_code_in_sandbox isWindows dockerCmd t (.failure msg tb)
      = [⟨"running", []⟩, ⟨"running", [("docker_cmd", dockerCmd)]⟩,
         ⟨"failed", [("error", "Exception: " ++ msg ++ "\n" ++ tb)]⟩] := rfl
  refine ⟨?_, ?_, ?_, exceptionError_contains msg tb⟩
  · simp only [submitAndRun, hval, hpres]
  · simp only [submitAndRun, hval, hpres]
    rw [statusOf_eq_fieldOf, hexec, fieldOf_applyUpdates _ jobId _ _ hrec1 "status"]
    simp only [setFields, List.foldl_cons, List.foldl_nil]
    rw [lookupField_setField_ne _ _ _ _ (by decide)]
    exact lookupField_setField_self _ "status" "failed"
  · simp only [submitAndRun, hval, hpres]
    rw [hexec, fieldOf_applyUpdates _ jobId _ _ hrec1 "error"]
    simp only [setFields, List.foldl_cons, List.foldl_nil]
    exact lookupField_setField_self _ "error" _

/-- Concrete witness for C9: a failed docker launch on a concrete uploaded
job still answers with the success payload and leaves the job `failed`. -/
theorem c9_launch_failure_witness :
    (submitAndRun [("j", [("status", "uploaded")])] ⟨[], []⟩ "j" "x = 1"
        false "docker run" 120 (.failure "docker not found" "Traceback")).1
      = .accepted "j" "processing" "Code submitted and processing started"
    ∧ statusOf (submitAndRun [("j", [("status", "uploaded")])] ⟨[], []⟩ "j"
        "x = 1" false "docker run" 120
        (.failure "docker not found" "Traceback")).2.1 "j" = some "failed" := by
  have h := c9_launch_failure [("j", [("status", "uploaded")])] ⟨[], []⟩ "j"
    "x = 1" false "docker run" 120 "docker not found" "Traceback"
    [("status", "uploaded")] rfl (by rfl)
  exact ⟨h.1, h.2.1⟩

theorem get_results_body (reg : Registry) (listDir : String → List String)
    (jobId : String) (rec : JobRecord) (rp : String) (fmt : String)
    (h1 : lookupKey reg jobId = some rec)
    (h2 : lookupField rec "status" = some "completed")
    (h3 : lookupField rec "result_path" = some rp) :
    get_results reg listDir jobId fmt =
      (if (listDir rp).isEmpty then .noResults
       else
         if fmt = "csv" ∧ (listDir rp).filter (fun f => strEndsWith f ".csv") ≠ [] then
           .fileResp (((listDir rp).filter (fun f => strEndsWith f ".csv")).headD "")
         else if fmt = "excel" ∧ (listDir rp).filter
             (fun f => strEndsWith f ".xlsx" || strEndsWith f ".xls") ≠ [] then
           .fileResp (((listDir rp).filter
             (fun f => strEndsWith f ".xlsx" || strEndsWith f ".xls")).headD "")
         else if (listDir rp).filter (fun f => strEndsWith f ".json") ≠ [] then
           .jsonResp (((listDir rp).filter (fun f => strEndsWith f ".json")).headD "")
         else .fileResp ((listDir rp).headD "")) := by
  unfold get_results
  rw [h1]
  simp only [h2, h3, ne_eq, not_true_eq_false, if_false, reduceCtorEq]

/-- Claim C7: `get_results` answers 404 for an unknown job id and a
not-ready payload for a job not in `completed`; for a completed job with
a non-empty result directory it serves the first file of the preferred
kind when one exists (`csv` and `excel` hints), otherwise falls back to
the first JSON file, and failing that serves the first available file. -/
theorem c7_get_results (reg : Registry) (listDir : String → List String)
    (jobId : String) :
    (lookupKey reg jobId = none →
      ∀ fmt, get_results reg listDir jobId fmt = .notFound)
    ∧ (∀ rec st, lookupKey reg jobId = some rec →
        lookupField rec "status" = some st → st ≠ "completed" →
        ∀ fmt, get_results reg listDir jobId fmt = .notReady st)
    ∧ (∀ rec rp, lookupKey reg jobId = some rec →
        lookupField rec "status" = some "completed" →
        lookupField rec "result_path" = some rp →
        listDir rp ≠ [] →
        ((listDir rp).filter (fun f => strEndsWith f ".csv") ≠ [] →
            get_results reg listDir jobId "csv"
              = .fileResp (((listDir rp).filter
                  (fun f => strEndsWith f ".csv")).headD ""))
        ∧ ((listDir rp).filter
              (fun f => strEndsWith f ".xlsx" || strEndsWith f ".xls") ≠ [] →
            get_results reg listDir jobId "excel"
              = .fileResp (((listDir rp).filter
                  (fun f => strEndsWith f ".xlsx" || strEndsWith f ".xls")).headD ""))
        ∧ (∀ fmt,
            (fmt = "csv" ∧ (listDir rp).filter (fun f => strEndsWith f ".csv") = [])
            ∨ (fmt = "excel" ∧ (listDir rp).filter
                (fun f => strEndsWith f ".xlsx" || strEndsWith f ".xls") = [])
            ∨ fmt = "json" →
            ((listDir rp).filter (fun f => strEndsWith f ".json") ≠ [] →
              get_results reg listDir jobId fmt
                = .jsonResp (((listDir rp).filter
                    (fun f => strEndsWith f ".json")).headD ""))
            ∧ ((listDir rp).filter (fun f => strEndsWith f ".json") = [] →
              get_results reg listDir jobId fmt
                = .fileResp ((listDir rp).headD "")))) := by
  refine ⟨?_, ?_, ?_⟩
  · intro h fmt
    unfold get_results
    rw [h]
  · intro rec st h1 h2 hst fmt
    unfold get_results
    rw [h1]
    simp only [h2, ne_eq, Option.some.injEq]
    rw [if_pos hst]
    rfl
  · intro rec rp h1 h2 h3 hne
    have hemp : (listDir rp).isEmpty = false := by
      simpa using hne
    refine ⟨?_, ?_, ?_⟩
    · intro hcsv
      rw [get_results_body reg listDir jobId rec rp "csv" h1 h2 h3, hemp]
      simp only [Bool.false_eq_true, if_false]
      rw [if_pos ⟨trivial, hcsv⟩]
    · intro hex
      rw [get_results_body reg listDir jobId rec rp "excel" h1 h2 h3, hemp]
      simp only [Bool.false_eq_true, if_false]
      rw [if_neg (by simp), if_pos ⟨trivial, hex⟩]
    · intro fmt hdis
      constructor
      · intro hjson
        rw [get_results_body reg listDir jobId rec rp fmt h1 h2 h3, hemp]
        simp only [Bool.false_eq_true, if_false]
        rcases hdis with ⟨hf, hc⟩ | ⟨hf, hx⟩ | hf
        · subst hf
          rw [if_neg (by simp [hc]), if_neg (by simp), if_pos hjson]
        · subst hf
          rw [if_neg (by simp), if_neg (by simp [hx]), if_pos hjson]
        · subst hf
          rw [if_neg (by simp), if_neg (by simp), if_pos hjson]
      · intro hjson
        rw [get_results_body reg listDir jobId rec rp fmt h1 h2 h3, hemp]
        simp only [Bool.false_eq_true, if_false]
        rcases hdis with ⟨hf, hc⟩ | ⟨hf, hx⟩ | hf
        · subst hf
          rw [if_neg (by simp [hc]), if_neg (by simp), if_neg (by simp [hjson])]
        · subst hf
          rw [if_neg (by simp), if_neg (by simp [hx]), if_neg (by simp [hjson])]
        · subst hf
          rw [if_neg (by simp), if_neg (by simp), if_neg (by simp [hjson])]

/-- Concrete witness for C7: with only `out.json` and `data.bin` in the
result directory, a `csv` request on the completed job falls back to the
JSON file; a job still `running` gets the not-ready payload; an unknown
id gets 404. -/
theorem c7_get_results_witness :
    get_results [("j", [("status", "completed"),
        ("result_path", "/tmp/file_processor/results/j")])]
        (fun _ => ["out.json", "data.bin"]) "j" "csv" = .jsonResp "out.json"
    ∧ get_results [("r", [("status", "running")])]
        (fun _ => []) "r" "json" = .notReady "running"
    ∧ get_results [("r", [("status", "running")])]
        (fun _ => []) "x" "json" = .notFound := by
  refine ⟨?_, ?_, ?_⟩
  · have h := ((c7_get_results [("j", [("status", "completed"),
      ("result_path", "/tmp/file_processor/results/j")])]
      (fun _ => ["out.json", "data.bin"]) "j").2.2
      [("status", "completed"), ("result_path", "/tmp/file_processor/results/j")]
      "/tmp/file_processor/results/j" rfl rfl rfl (by decide)).2.2
      "csv" (Or.inl ⟨rfl, by decide⟩)
    exact (h.1 (by decide)).trans (by decide)
  · exact (c7_get_results [("r", [("status", "running")])] (fun _ => []) "r").2.1
      [("status", "running")] "running" rfl rfl (by decide) "json"
  · exact (c7_get_results [("r", [("status", "running")])] (fun _ => []) "x").1
      rfl "json"

theorem fileExists_removeFile_self (fs : FS) (p : String) :
    fileExists (removeFile fs p) p = false := by
  simp only [fileExists, removeFile]
  rw [List.any_eq_false]
  intro x hx
  have h1 := List.of_mem_filter hx
  simp only [bne_iff_ne, ne_eq] at h1
  simp [h1]

theorem fileExists_removeFile_false (fs : FS) (p q : String)
    (h : fileExists fs q = false) :
    fileExists (removeFile fs p) q = false := by
  simp only [fileExists, removeFile] at h ⊢
  rw [List.any_eq_false] at h ⊢
  intro x hx
  exact h x (List.mem_of_mem_filter hx)

theorem fileExists_removeFile_ne (fs : FS) (p q : String) (h : q ≠ p) :
    fileExists (removeFile fs p) q = fileExists fs q := by
  simp only [fileExists, removeFile]
  induction fs.files with
  | nil => rfl
  | cons hd tl ih =>
    by_cases hp : hd.1 = p
    · have hq2 : (hd.1 == q) = false := by
        rw [hp, beq_eq_false_iff_ne]
        exact fun e => h e.symm
      simp [List.filter_cons, hp, List.any_cons, hq2, ih]
      intro e
      exact absurd e.symm h
    · simp [List.filter_cons, bne_iff_ne, hp, List.any_cons, ih]

theorem fileExists_rmtree (fs : FS) (p q : String) :
    fileExists (rmtree fs p) q = fileExists fs q := rfl

theorem dirExists_removeFile (fs : FS) (p q : String) :
    dirExists (removeFile fs p) q = dirExists fs q := rfl

theorem dirExists_rmtree_self (fs : FS) (p : String) :
    dirExists (rmtree fs p) p = false := by
  simp only [dirExists, rmtree]
  rw [List.any_eq_false]
  intro x hx
  have h1 := List.of_mem_filter hx
  simp only [bne_iff_ne, ne_eq] at h1
  simp [h1]

theorem dirExists_rmtree_false (fs : FS) (p q : String)
    (h : dirExists fs q = false) :
    dirExists (rmtree fs p) q = false := by
  simp only [dirExists, rmtree] at h ⊢
  rw [List.any_eq_false] at h ⊢
  intro x hx
  exact h x (List.mem_of_mem_filter hx)

theorem dirExists_rmtree_ne (fs : FS) (p q : String) (h : q ≠ p) :
    dirExists (rmtree fs p) q = dirExists fs q := by
  simp only [dirExists, rmtree]
  induction fs.dirs with
  | nil => rfl
  | cons hd tl ih =>
    by_cases hp : hd = p
    · have hq2 : (hd == q) = false := by
        rw [hp, beq_eq_false_iff_ne]
        exact fun e => h e.symm
      simp [List.filter_cons, hp, List.any_cons, hq2, ih]
      intro e
      exact absurd e.symm h
    · simp [List.filter_cons, bne_iff_ne, hp, List.any_cons, ih]

theorem pathExists_false_file (fs : FS) (p : String)
    (h : pathExists fs p = false) : fileExists fs p = false := by
  simp only [pathExists, Bool.or_eq_false_iff] at h
  exact h.1

theorem pathExists_false_dir (fs : FS) (p : String)
    (h : pathExists fs p = false) : dirExists fs p = false := by
  simp only [pathExists, Bool.or_eq_false_iff] at h
  exact h.2

theorem tryRemove_file_ok (removeFails : String → Bool) (job : JobRecord)
    (key : String) (fs : FS)
    (h : ∀ p, lookupField job key = some p → removeFails p = false) :
    ∃ fs2, tryRemove removeFails job key false fs = .ok fs2
      ∧ (∀ p, lookupField job key = some p → fileExists fs2 p = false)
      ∧ (∀ q, fileExists fs q = false → fileExists fs2 q = false)
      ∧ fs2.dirs = fs.dirs := by
  cases hk : lookupField job key with
  | none =>
    refine ⟨fs, by simp [tryRemove, hk], ?_, fun q hq => hq, rfl⟩
    intro p hp
    cases hp
  | some p =>
    by_cases hex : pathExists fs p = true
    · refine ⟨removeFile fs p, ?_, ?_, ?_, rfl⟩
      · simp [tryRemove, hk, hex, h p hk]
      · intro p2 hp2
        injection hp2 with e
        subst e
        exact fileExists_removeFile_self fs p
      · intro q hq
        exact fileExists_removeFile_false fs p q hq
    · have hex2 : pathExists fs p = false := by
        simpa using hex
      refine ⟨fs, by simp [tryRemove, hk, hex2], ?_, fun q hq => hq, rfl⟩
      intro p2 hp2
      injection hp2 with e
      subst e
      exact pathExists_false_file fs p hex2

theorem tryRemove_dir_ok (removeFails : String → Bool) (job : JobRecord)
    (key : String) (fs : FS)
    (h : ∀ p, lookupField job key = some p → removeFails p = false) :
    ∃ fs2, tryRemove removeFails job key true fs = .ok fs2
      ∧ (∀ p, lookupField job key = some p → dirExists fs2 p = false)
      ∧ (∀ q, dirExists fs q = false → dirExists fs2 q = false)
      ∧ fs2.files = fs.files := by
  cases hk : lookupField job key with
  | none =>
    refine ⟨fs, by simp [tryRemove, hk], ?_, fun q hq => hq, rfl⟩
    intro p hp
    cases hp
  | some p =>
    by_cases hex : pathExists fs p = true
    · refine ⟨rmtree fs p, ?_, ?_, ?_, rfl⟩
      · simp [tryRemove, hk, hex, h p hk]
      · intro p2 hp2
        injection hp2 with e
        subst e
        exact dirExists_rmtree_self fs p
      · intro q hq
        exact dirExists_rmtree_false fs p q hq
    · have hex2 : pathExists fs p = false := by
        simpa using hex
      refine ⟨fs, by simp [tryRemove, hk, hex2], ?_, fun q hq => hq, rfl⟩
      intro p2 hp2
      injection hp2 with e
      subst e
      exact pathExists_false_dir fs p hex2

theorem tryCleanupJob_success (removeFails : String → Bool) (job : JobRecord)
    (fs : FS)
    (h1 : ∀ p, lookupField job "file_path" = some p → removeFails p = false)
    (h2 : ∀ p, lookupField job "code_path" = some p → removeFails p = false)
    (h3 : ∀ p, lookupField job "result_path" = some p → removeFails p = false) :
    (tryCleanupJob removeFails job fs).1 = true
    ∧ (∀ p, lookupField job "file_path" = some p →
        fileExists (tryCleanupJob removeFails job fs).2 p = false)
    ∧ (∀ p, lookupField job "code_path" = some p →
        fileExists (tryCleanupJob removeFails job fs).2 p = false)
    ∧ (∀ p, lookupField job "result_path" = some p →
        dirExists (tryCleanupJob removeFails job fs).2 p = false) := by
  obtain ⟨fs2, e1, a1, m1, d1⟩ := tryRemove_file_ok removeFails job "file_path" fs h1
  obtain ⟨fs3, e2, a2, m2, d2⟩ := tryRemove_file_ok removeFails job "code_path" fs2 h2
  obtain ⟨fs4, e3, a3, m3, f3⟩ := tryRemove_dir_ok removeFails job "result_path" fs3 h3
  have hT : tryCleanupJob removeFails job fs = (true, fs4) := by
    simp [tryCleanupJob, e1, e2, e3]
  rw [hT]
  have hfe : ∀ q, fileExists fs4 q = fileExists fs3 q := by
    intro q
    simp only [fileExists, f3]
  refine ⟨rfl, ?_, ?_, ?_⟩
  · intro p hp
    rw [hfe p]
    exact m2 p (a1 p hp)
  · intro p hp
    rw [hfe p]
    exact a2 p hp
  · intro p hp
    exact a3 p hp

theorem tryRemove_frame (removeFails : String → Bool) (job : JobRecord)
    (key : String) (isDir : Bool) (fs : FS) (q : String)
    (h : lookupField job key ≠ some q) :
    ∀ f, (tryRemove removeFails job key isDir fs = .ok f ∨
          tryRemove removeFails job key isDir fs = .error f) →
      fileExists f q = fileExists fs q ∧ dirExists f q = dirExists fs q := by
  intro f hf
  cases hk : lookupField job key with
  | none =>
    simp only [tryRemove, hk] at hf
    rcases hf with e | e
    · injection e with e2
      subst e2
      exact ⟨rfl, rfl⟩
    · cases e
  | some p =>
    have hqp : q ≠ p := fun e => h (hk.trans (by rw [e]))
    simp only [tryRemove, hk] at hf
    by_cases hex : pathExists fs p = true
    · simp only [hex, if_true] at hf
      by_cases hrf : removeFails p = true
      · simp only [hrf, if_true] at hf
        rcases hf with e | e
        · cases e
        · injection e with e2
          subst e2
          exact ⟨rfl, rfl⟩
      · have hrf2 : removeFails p = false := by simpa using hrf
        simp only [hrf2, Bool.false_eq_true, if_false] at hf
        rcases hf with e | e
        · injection e with e2
          subst e2
          cases isDir
          · exact ⟨fileExists_removeFile_ne fs p q hqp, dirExists_removeFile fs p q⟩
          · exact ⟨fileExists_rmtree fs p q, dirExists_rmtree_ne fs p q hqp⟩
        · cases e
    · have hex2 : pathExists fs p = false := by simpa using hex
      simp only [hex2, Bool.false_eq_true, if_false] at hf
      rcases hf with e | e
      · injection e with e2
        subst e2
        exact ⟨rfl, rfl⟩
      · cases e

theorem tryRemove_fs_mono (removeFails : String → Bool) (job : JobRecord)
    (key : String) (isDir : Bool) (fs : FS) (q : String) :
    ∀ f, (tryRemove removeFails job key isDir fs = .ok f ∨
          tryRemove removeFails job key isDir fs = .error f) →
      (fileExists fs q = false → fileExists f q = false)
      ∧ (dirExists fs q = false → dirExists f q = false) := by
  intro f hf
  cases hk : lookupField job key with
  | none =>
    simp only [tryRemove, hk] at hf
    rcases hf with e | e
    · injection e with e2
      subst e2
      exact ⟨id, id⟩
    · cases e
  | some p =>
    simp only [tryRemove, hk] at hf
    by_cases hex : pathExists fs p = true
    · simp only [hex, if_true] at hf
      by_cases hrf : removeFails p = true
      · simp only [hrf, if_true] at hf
        rcases hf with e | e
        · cases e
        · injection e with e2
          subst e2
          exact ⟨id, id⟩
      · have hrf2 : removeFails p = false := by simpa using hrf
        simp only [hrf2, Bool.false_eq_true, if_false] at hf
        rcases hf with e | e
        · injection e with e2
          subst e2
          cases isDir
          · exact ⟨fileExists_removeFile_false fs p q,
              fun hd => (dirExists_removeFile fs p q).trans hd⟩
          · exact ⟨fun hfe => (fileExists_rmtree fs p q).trans hfe,
              dirExists_rmtree_false fs p q⟩
        · cases e
    · have hex2 : pathExists fs p = false := by simpa using hex
      simp only [hex2, Bool.false_eq_true, if_false] at hf
      rcases hf with e | e
      · injection e with e2
        subst e2
        exact ⟨id, id⟩
      · cases e

theorem tryCleanupJob_frame (removeFails : String → Bool) (job : JobRecord)
    (fs : FS) (q : String)
    (hf1 : lookupField job "file_path" ≠ some q)
    (hf2 : lookupField job "code_path" ≠ some q)
    (hf3 : lookupField job "result_path" ≠ some q) :
    fileExists (tryCleanupJob removeFails job fs).2 q = fileExists fs q
    ∧ dirExists (tryCleanupJob removeFails job fs).2 q = dirExists fs q := by
  cases e1 : tryRemove removeFails job "file_path" false fs with
  | error f =>
    have hT : tryCleanupJob removeFails job fs = (false, f) := by
      simp [tryCleanupJob, e1]
    rw [hT]
    exact tryRemove_frame removeFails job "file_path" false fs q hf1 f (Or.inr e1)
  | ok f1 =>
    have t1 := tryRemove_frame removeFails job "file_path" false fs q hf1 f1 (Or.inl e1)
    cases e2 : tryRemove removeFails job "code_path" false f1 with
    | error f =>
      have hT : tryCleanupJob removeFails job fs = (false, f) := by
        simp [tryCleanupJob, e1, e2]
      rw [hT]
      have t2 := tryRemove_frame removeFails job "code_path" false f1 q hf2 f (Or.inr e2)
      exact ⟨t2.1.trans t1.1, t2.2.trans t1.2⟩
    | ok f2 =>
      have t2 := tryRemove_frame removeFails job "code_path" false f1 q hf2 f2 (Or.inl e2)
      cases e3 : tryRemove removeFails job "result_path" true f2 with
      | error f =>
        have hT : tryCleanupJob removeFails job fs = (false, f) := by
          simp [tryCleanupJob, e1, e2, e3]
        rw [hT]
        have t3 := tryRemove_frame removeFails job "result_path" true f2 q hf3 f (Or.inr e3)
        exact ⟨t3.1.trans (t2.1.trans t1.1), t3.2.trans (t2.2.trans t1.2)⟩
      | ok f3 =>
        have hT : tryCleanupJob removeFails job fs = (true, f3) := by
          simp [tryCleanupJob, e1, e2, e3]
        rw [hT]
        have t3 := tryRemove_frame removeFails job "result_path" true f2 q hf3 f3 (Or.inl e3)
        exact ⟨t3.1.trans (t2.1.trans t1.1), t3.2.trans (t2.2.trans t1.2)⟩

theorem tryCleanupJob_fs_mono (removeFails : String → Bool) (job : JobRecord)
    (fs : FS) (q : String) :
    (fileExists fs q = false →
      fileExists (tryCleanupJob removeFails job fs).2 q = false)
    ∧ (dirExists fs q = false →
      dirExists (tryCleanupJob removeFails job fs).2 q = false) := by
  cases e1 : tryRemove removeFails job "file_path" false fs with
  | error f =>
    have hT : tryCleanupJob removeFails job fs = (false, f) := by
      simp [tryCleanupJob, e1]
    rw [hT]
    exact tryRemove_fs_mono removeFails job "file_path" false fs q f (Or.inr e1)
  | ok f1 =>
    have t1 := tryRemove_fs_mono removeFails job "file_path" false fs q f1 (Or.inl e1)
    cases e2 : tryRemove removeFails job "code_path" false f1 with
    | error f =>
      have hT : tryCleanupJob removeFails job fs = (false, f) := by
        simp [tryCleanupJob, e1, e2]
      rw [hT]
      have t2 := tryRemove_fs_mono removeFails job "code_path" false f1 q f (Or.inr e2)
      exact ⟨fun h => t2.1 (t1.1 h), fun h => t2.2 (t1.2 h)⟩
    | ok f2 =>
      have t2 := tryRemove_fs_mono removeFails job "code_path" false f1 q f2 (Or.inl e2)
      cases e3 : tryRemove removeFails job "result_path" true f2 with
      | error f =>
        have hT : tryCleanupJob removeFails job fs = (false, f) := by
          simp [tryCleanupJob, e1, e2, e3]
        rw [hT]
        have t3 := tryRemove_fs_mono removeFails job "result_path" true f2 q f (Or.inr e3)
        exact ⟨fun h => t3.1 (t2.1 (t1.1 h)), fun h => t3.2 (t2.2 (t1.2 h))⟩
      | ok f3 =>
        have hT : tryCleanupJob removeFails job fs = (true, f3) := by
          simp [tryCleanupJob, e1, e2, e3]
        rw [hT]
        have t3 := tryRemove_fs_mono removeFails job "result_path" true f2 q f3 (Or.inl e3)
        exact ⟨fun h => t3.1 (t2.1 (t1.1 h)), fun h => t3.2 (t2.2 (t1.2 h))⟩

theorem sweepStep_lookup_ne (removeFails : String → Bool) (acc : Registry × FS)
    (i j : String) (h : j ≠ i) :
    lookupKey (sweepStep removeFails acc i).1 j = lookupKey acc.1 j := by
  unfold sweepStep
  cases hl : lookupKey acc.1 i with
  | none => rfl
  | some r =>
    show lookupKey (if (tryCleanupJob removeFails r acc.2).1
        then delete_job acc.1 i else acc.1) j = lookupKey acc.1 j
    split
    · exact lookupKey_filter_ne acc.1 i j h
    · rfl

theorem sweepStep_none (removeFails : String → Bool) (acc : Registry × FS)
    (i j : String) (h : lookupKey acc.1 j = none) :
    lookupKey (sweepStep removeFails acc i).1 j = none := by
  unfold sweepStep
  cases hl : lookupKey acc.1 i with
  | none => exact h
  | some r =>
    show lookupKey (if (tryCleanupJob removeFails r acc.2).1
        then delete_job acc.1 i else acc.1) j = none
    split
    · exact lookupKey_none_filter acc.1 _ j h
    · exact h

theorem sweepStep_fs_mono (removeFails : String → Bool) (acc : Registry × FS)
    (i : String) (q : String) :
    (fileExists acc.2 q = false →
      fileExists (sweepStep removeFails acc i).2 q = false)
    ∧ (dirExists acc.2 q = false →
      dirExists (sweepStep removeFails acc i).2 q = false) := by
  unfold sweepStep
  cases hl : lookupKey acc.1 i with
  | none => exact ⟨id, id⟩
  | some r => exact tryCleanupJob_fs_mono removeFails r acc.2 q

theorem sweepStep_sublist (removeFails : String → Bool) (acc : Registry × FS)
    (i : String) :
    (sweepStep removeFails acc i).1.Sublist acc.1 := by
  unfold sweepStep
  cases hl : lookupKey acc.1 i with
  | none => exact List.Sublist.refl _
  | some r =>
    show (if (tryCleanupJob removeFails r acc.2).1
        then delete_job acc.1 i else acc.1).Sublist acc.1
    split
    · exact List.filter_sublist _
    · exact List.Sublist.refl _

theorem sweep_fold_none2 (removeFails : String → Bool) (ids : List String)
    (st : Registry × FS) (j : String) (h : lookupKey st.1 j = none) :
    lookupKey (ids.foldl (sweepStep removeFails) st).1 j = none := by
  induction ids generalizing st with
  | nil => exact h
  | cons i tl ih =>
    simp only [List.foldl_cons]
    exact ih (sweepStep removeFails st i) (sweepStep_none removeFails st i j h)

theorem sweep_fold_not_mem (removeFails : String → Bool) (ids : List String)
    (st : Registry × FS) (j : String) (h : j ∉ ids) :
    lookupKey (ids.foldl (sweepStep removeFails) st).1 j = lookupKey st.1 j := by
  induction ids generalizing st with
  | nil => rfl
  | cons i tl ih =>
    simp only [List.foldl_cons]
    have hji : j ≠ i := fun e => h (e ▸ List.mem_cons_self i tl)
    rw [ih (sweepStep removeFails st i) (fun hm => h (List.mem_cons_of_mem i hm)),
        sweepStep_lookup_ne removeFails st i j hji]

theorem sweep_fold_fs_mono (removeFails : String → Bool) (ids : List String)
    (st : Registry × FS) (q : String) :
    (fileExists st.2 q = false →
      fileExists ((ids.foldl (sweepStep removeFails) st)).2 q = false)
    ∧ (dirExists st.2 q = false →
      dirExists ((ids.foldl (sweepStep removeFails) st)).2 q = false) := by
  induction ids generalizing st with
  | nil => exact ⟨id, id⟩
  | cons i tl ih =>
    simp only [List.foldl_cons]
    exact ⟨fun h => (ih (sweepStep removeFails st i)).1
        ((sweepStep_fs_mono removeFails st i q).1 h),
      fun h => (ih (sweepStep removeFails st i)).2
        ((sweepStep_fs_mono removeFails st i q).2 h)⟩

theorem sweep_fold_deletes (removeFails : String → Bool) (ids : List String)
    (st : Registry × FS) (j : String) (rec : JobRecord)
    (hin : j ∈ ids) (hrec : lookupKey st.1 j = some rec)
    (h1 : ∀ p, lookupField rec "file_path" = some p → removeFails p = false)
    (h2 : ∀ p, lookupField rec "code_path" = some p → removeFails p = false)
    (h3 : ∀ p, lookupField rec "result_path" = some p → removeFails p = false) :
    lookupKey ((ids.foldl (sweepStep removeFails) st)).1 j = none
    ∧ (∀ p, lookupField rec "file_path" = some p →
        fileExists ((ids.foldl (sweepStep removeFails) st)).2 p = false)
    ∧ (∀ p, lookupField rec "code_path" = some p →
        fileExists ((ids.foldl (sweepStep removeFails) st)).2 p = false)
    ∧ (∀ p, lookupField rec "result_path" = some p →
        dirExists ((ids.foldl (sweepStep removeFails) st)).2 p = false) := by
  induction ids generalizing st with
  | nil => cases hin
  | cons i tl ih =>
    simp only [List.foldl_cons]
    by_cases hij : i = j
    · subst hij
      have hsucc := tryCleanupJob_success removeFails rec st.2 h1 h2 h3
      have hstep : sweepStep removeFails st i
          = (delete_job st.1 i, (tryCleanupJob removeFails rec st.2).2) := by
        unfold sweepStep
        rw [hrec]
        simp [hsucc.1]
      rw [hstep]
      refine ⟨?_, ?_, ?_, ?_⟩
      · exact sweep_fold_none2 removeFails tl _ i (lookupKey_filter_self st.1 i)
      · intro p hp
        exact (sweep_fold_fs_mono removeFails tl _ p).1 (hsucc.2.1 p hp)
      · intro p hp
        exact (sweep_fold_fs_mono removeFails tl _ p).1 (hsucc.2.2.1 p hp)
      · intro p hp
        exact (sweep_fold_fs_mono removeFails tl _ p).2 (hsucc.2.2.2 p hp)
    · have hin2 : j ∈ tl := by
        rcases List.mem_cons.mp hin with e | hm
        · exact absurd e.symm hij
        · exact hm
      have hpres : lookupKey (sweepStep removeFails st i).1 j = some rec := by
        rw [sweepStep_lookup_ne removeFails st i j (fun e => hij e.symm)]
        exact hrec
      exact ih (sweepStep removeFails st i) hin2 hpres

theorem sweep_fold_frame (removeFails : String → Bool) (ids : List String)
    (st : Registry × FS) (reg0 : Registry) (q : String)
    (hsub : st.1.Sublist reg0)
    (hnd : (reg0.map Prod.fst).Nodup)
    (hq : ∀ i ∈ ids, ∀ r, lookupKey reg0 i = some r →
        lookupField r "file_path" ≠ some q
        ∧ lookupField r "code_path" ≠ some q
        ∧ lookupField r "result_path" ≠ some q) :
    fileExists ((ids.foldl (sweepStep removeFails) st)).2 q = fileExists st.2 q
    ∧ dirExists ((ids.foldl (sweepStep removeFails) st)).2 q = dirExists st.2 q := by
  induction ids generalizing st with
  | nil => exact ⟨rfl, rfl⟩
  | cons i tl ih =>
    simp only [List.foldl_cons]
    have hstep : fileExists (sweepStep removeFails st i).2 q = fileExists st.2 q
        ∧ dirExists (sweepStep removeFails st i).2 q = dirExists st.2 q := by
      unfold sweepStep
      cases hl : lookupKey st.1 i with
      | none => exact ⟨rfl, rfl⟩
      | some r =>
        have hmem : (i, r) ∈ reg0 := hsub.subset (lookupKey_some_mem st.1 i r hl)
        have hlook : lookupKey reg0 i = some r := mem_nodup_lookupKey reg0 i r hnd hmem
        have hfr := hq i (List.mem_cons_self i tl) r hlook
        exact tryCleanupJob_frame removeFails r st.2 q hfr.1 hfr.2.1 hfr.2.2
    have hnext := ih (sweepStep removeFails st i)
      ((sweepStep_sublist removeFails st i).trans hsub)
      (fun i2 h2 r hr => hq i2 (List.mem_cons_of_mem i h2) r hr)
    exact ⟨hnext.1.trans hstep.1, hnext.2.trans hstep.2⟩

/-- Claim C8: after one sweeper cycle, every registry entry whose
timestamp is past the retention cutoff and whose own removals do not fail
is removed from the registry with its input file, code file and result
directory gone from disk — and this holds whatever the removal oracle
does on other jobs' paths, so one job's cleanup failure does not prevent
the deletion of other expired jobs; an entry whose timestamp is not past
the cutoff keeps exactly its record; and the cycle never touches a path
that is not an artifact of some expired entry. -/
theorem c8_sweeper (removeFails expired : String → Bool) (reg : Registry)
    (fs : FS) :
    (∀ jobId rec ts, lookupKey reg jobId = some rec →
        lookupField rec "timestamp" = some ts → expired ts = true →
        (∀ p, lookupField rec "file_path" = some p → removeFails p = false) →
        (∀ p, lookupField rec "code_path" = some p → removeFails p = false) →
        (∀ p, lookupField rec "result_path" = some p → removeFails p = false) →
        lookupKey (cleanup_cycle removeFails expired reg fs).1 jobId = none
        ∧ (∀ p, lookupField rec "file_path" = some p →
            fileExists (cleanup_cycle removeFails expired reg fs).2 p = false)
        ∧ (∀ p, lookupField rec "code_path" = some p →
            fileExists (cleanup_cycle removeFails expired reg fs).2 p = false)
        ∧ (∀ p, lookupField rec "result_path" = some p →
            dirExists (cleanup_cycle removeFails expired reg fs).2 p = false))
    ∧ ((reg.map Prod.fst).Nodup →
        ∀ jobId rec ts, lookupKey reg jobId = some rec →
        lookupField rec "timestamp" = some ts → expired ts = false →
        lookupKey (cleanup_cycle removeFails expired reg fs).1 jobId = some rec)
    ∧ ((reg.map Prod.fst).Nodup →
        ∀ q, (∀ i r, (i, r) ∈ reg → recordExpired expired r = true →
            lookupField r "file_path" ≠ some q
            ∧ lookupField r "code_path" ≠ some q
            ∧ lookupField r "result_path" ≠ some q) →
        fileExists (cleanup_cycle removeFails expired reg fs).2 q
            = fileExists fs q
        ∧ dirExists (cleanup_cycle removeFails expired reg fs).2 q
            = dirExists fs q) := by
  refine ⟨?_, ?_, ?_⟩
  · intro jobId rec ts hj hts hexp hp1 hp2 hp3
    have hmem : jobId ∈ (reg.filter
        (fun p => recordExpired expired p.2)).map (fun p => p.1) := by
      refine List.mem_map.mpr ⟨(jobId, rec), ?_, rfl⟩
      rw [List.mem_filter]
      refine ⟨lookupKey_some_mem reg jobId rec hj, ?_⟩
      simp [recordExpired, hts, hexp]
    exact sweep_fold_deletes removeFails
      ((reg.filter (fun p => recordExpired expired p.2)).map (fun p => p.1))
      (reg, fs) jobId rec hmem hj hp1 hp2 hp3
  · intro hnd jobId rec ts hj hts hexp
    have hnotmem : jobId ∉ (reg.filter
        (fun p => recordExpired expired p.2)).map (fun p => p.1) := by
      intro hm
      obtain ⟨pr, hpr, he⟩ := List.mem_map.mp hm
      obtain ⟨hmem2, hexp2⟩ := List.mem_filter.mp hpr
      obtain ⟨i2, r2⟩ := pr
      simp only at he
      subst he
      have hl2 : lookupKey reg i2 = some r2 :=
        mem_nodup_lookupKey reg i2 r2 hnd hmem2
      rw [hj] at hl2
      injection hl2 with e
      subst e
      simp [recordExpired, hts, hexp] at hexp2
    exact (sweep_fold_not_mem removeFails
      ((reg.filter (fun p => recordExpired expired p.2)).map (fun p => p.1))
      (reg, fs) jobId hnotmem).trans hj
  · intro hnd q hq
    have hq2 : ∀ i ∈ (reg.filter
        (fun p => recordExpired expired p.2)).map (fun p => p.1),
        ∀ r, lookupKey reg i = some r →
          lookupField r "file_path" ≠ some q
          ∧ lookupField r "code_path" ≠ some q
          ∧ lookupField r "result_path" ≠ some q := by
      intro i hi r hr
      obtain ⟨pr, hpr, he⟩ := List.mem_map.mp hi
      obtain ⟨hmem2, hexp2⟩ := List.mem_filter.mp hpr
      obtain ⟨i2, r2⟩ := pr
      simp only at he
      subst he
      have hl2 : lookupKey reg i2 = some r2 :=
        mem_nodup_lookupKey reg i2 r2 hnd hmem2
      rw [hr] at hl2
      injection hl2 with e
      subst e
      exact hq i2 r hmem2 hexp2
    exact sweep_fold_frame removeFails
      ((reg.filter (fun p => recordExpired expired p.2)).map (fun p => p.1))
      (reg, fs) reg q (List.Sublist.refl reg) hnd hq2

theorem noFail_of_eq (removeFails : String → Bool) (v : String)
    (o : Option String) (ho : o = some v) (hv : removeFails v = false) :
    ∀ p, o = some p → removeFails p = false := by
  intro p hp
  rw [ho] at hp
  injection hp with e
  rw [← e]
  exact hv

/-- Concrete witness for C8: with removal failing on the first expired
job's input file, the second expired job is still deleted from the
registry with its artifacts gone from disk, and the young job's record is
untouched. -/
theorem c8_sweeper_witness :
    lookupKey (cleanup_cycle (fun p => p == "/up/old1") (fun ts => ts == "OLD")
      [("old1", [("timestamp", "OLD"), ("file_path", "/up/old1")]),
       ("old2", [("timestamp", "OLD"), ("file_path", "/up/old2"),
                 ("code_path", "/code/old2"), ("result_path", "/res/old2")]),
       ("young", [("timestamp", "NEW"), ("file_path", "/up/young")])]
      ⟨[("/up/old1", "A"), ("/up/old2", "B"), ("/code/old2", "C"),
        ("/up/young", "D")], ["/res/old2"]⟩).1 "old2" = none
    ∧ fileExists (cleanup_cycle (fun p => p == "/up/old1") (fun ts => ts == "OLD")
      [("old1", [("timestamp", "OLD"), ("file_path", "/up/old1")]),
       ("old2", [("timestamp", "OLD"), ("file_path", "/up/old2"),
                 ("code_path", "/code/old2"), ("result_path", "/res/old2")]),
       ("young", [("timestamp", "NEW"), ("file_path", "/up/young")])]
      ⟨[("/up/old1", "A"), ("/up/old2", "B"), ("/code/old2", "C"),
        ("/up/young", "D")], ["/res/old2"]⟩).2 "/up/old2" = false
    ∧ dirExists (cleanup_cycle (fun p => p == "/up/old1") (fun ts => ts == "OLD")
      [("old1", [("timestamp", "OLD"), ("file_path", "/up/old1")]),
       ("old2", [("timestamp", "OLD"), ("file_path", "/up/old2"),
                 ("code_path", "/code/old2"), ("result_path", "/res/old2")]),
       ("young", [("timestamp", "NEW"), ("file_path", "/up/young")])]
      ⟨[("/up/old1", "A"), ("/up/old2", "B"), ("/code/old2", "C"),
        ("/up/young", "D")], ["/res/old2"]⟩).2 "/res/old2" = false
    ∧ lookupKey (cleanup_cycle (fun p => p == "/up/old1") (fun ts => ts == "OLD")
      [("old1", [("timestamp", "OLD"), ("file_path", "/up/old1")]),
       ("old2", [("timestamp", "OLD"), ("file_path", "/up/old2"),
                 ("code_path", "/code/old2"), ("result_path", "/res/old2")]),
       ("young", [("timestamp", "NEW"), ("file_path", "/up/young")])]
      ⟨[("/up/old1", "A"), ("/up/old2", "B"), ("/code/old2", "C"),
        ("/up/young", "D")], ["/res/old2"]⟩).1 "young"
        = some [("timestamp", "NEW"), ("file_path", "/up/young")] := by
  have h := c8_sweeper (fun p => p == "/up/old1") (fun ts => ts == "OLD")
    [("old1", [("timestamp", "OLD"), ("file_path", "/up/old1")]),
       ("old2", [("timestamp", "OLD"), ("file_path", "/up/old2"),
                 ("code_path", "/code/old2"), ("result_path", "/res/old2")]),
       ("young", [("timestamp", "NEW"), ("file_path", "/up/young")])]
    ⟨[("/up/old1", "A"), ("/up/old2", "B"), ("/code/old2", "C"),
        ("/up/young", "D")], ["/res/old2"]⟩
  have h1 := h.1 "old2"
    [("timestamp", "OLD"), ("file_path", "/up/old2"),
     ("code_path", "/code/old2"), ("result_path", "/res/old2")] "OLD"
    rfl rfl (by decide)
    (noFail_of_eq _ "/up/old2" _ rfl (by decide))
    (noFail_of_eq _ "/code/old2" _ rfl (by decide))
    (noFail_of_eq _ "/res/old2" _ rfl (by decide))
  have h2 := h.2.1 (by decide) "young"
    [("timestamp", "NEW"), ("file_path", "/up/young")] "NEW" rfl rfl (by decide)
  exact ⟨h1.1, h1.2.1 "/up/old2" rfl, h1.2.2.2 "/res/old2" rfl, h2⟩
